import Mathlib

/-!
# Shallow embedding of the multi-node supply chain simulation

This file embeds the data model and operations of
`multi_node_simulation.py` (classes `TrackedUnit`, `Node`,
`MultiNodeSimulation`) and the two cycle-time series of
`metrics_logger.py` (`MetricsLogger.compute_cycle_times`), and proves
properties of the embedded definitions.

Modelling conventions:
* Python `int` is `Int`; Python lists/deques are Lean `List`s
  (`popleft` = head/tail, `append` = `++ [x]`).
* Tracked units are mutable shared objects in Python; here the engine
  state carries the append-only store `tracked_units : List TrackedUnit`
  and every queue holds a handle (`Nat` index into that store).  This is
  faithful because unit ids map one-to-one onto store positions in the
  order `tracked_units`/`MetricsLogger.add_unit` append them.
* `raise` is `Except.error`; the `assert` in `MultiNodeSimulation.__init__`
  is an `Except.error "AssertionError"`.
* `random.randint` is not modelled: `step` always takes the effective
  demand value as an argument (the caller-supplied override, or whatever
  value the sampler returned).  The stored `seed` is carried but unused,
  as in the source once sampling is factored out.
-/

/-- Python unit ids: `(f'init_{i+1}', j)` for pre-seeded inventory and
`(t, i)` for demand-created units. -/
inductive UnitId where
  | initial (node : Nat) (j : Nat)
  | demand (t : Int) (i : Nat)
deriving DecidableEq, Repr

/-- `TrackedUnit`: id plus the timeline dictionary of
`multi_node_simulation.py` lines 10-25 (all keys start as `None`). -/
structure TrackedUnit where
  id : UnitId
  t_demand_actual_customer : Option Int := none
  t_order_to_supplier : Option Int := none
  t_order_arrived_at_supplier : Option Int := none
  t_order_to_manufacturer : Option Int := none
  t_order_arrived_at_manufacturer : Option Int := none
  t_manufacturing_completed : Option Int := none
  t_shipped_to_distributor : Option Int := none
  t_arrived_at_distributor : Option Int := none
  t_shipped_to_shop : Option Int := none
  t_arrived_at_shop : Option Int := none
  t_given_to_actual_customer : Option Int := none
deriving DecidableEq, Repr

instance : Inhabited TrackedUnit := ⟨{ id := UnitId.initial 0 0 }⟩

/-- Entry of `customer_queue`: `(arrival_time, qty, unit, requested_time)`
(always appended as a 4-tuple via `add_to_customer_queue`). -/
structure CQEntry where
  arrival_time : Int
  qty : Int
  unit : Nat
  requested_time : Int
deriving DecidableEq, Repr

/-- Entry of `incoming_orders` / `order_queue`:
`(arrival_time, unit, sent_time)`. -/
structure OrderEntry where
  arrival_time : Int
  unit : Nat
  sent_time : Int
deriving DecidableEq, Repr

/-- Entry of `incoming_shipments` / `outgoing_shipments`.  The comment in
`Node.__init__` promises 3-tuples but every append site produces a
4-tuple `(arrival_time, unit, sent_time, requested_time)`;
`receive_shipments` raises on any other length.  Both shapes are modelled
so that the error branch is statable. -/
inductive ShipEntry where
  | triple (arrival_time : Int) (unit : Nat) (sent_time : Int)
  | quad (arrival_time : Int) (unit : Nat) (sent_time : Int) (requested_time : Int)
deriving DecidableEq, Repr

/-- `shipment[0]`, defined on both tuple shapes. -/
def ShipEntry.arrival_time : ShipEntry → Int
  | .triple a _ _ => a
  | .quad a _ _ _ => a

/-- The unit carried by a shipment entry. -/
def ShipEntry.unit : ShipEntry → Nat
  | .triple _ u _ => u
  | .quad _ u _ _ => u

/-- Whether the entry is a 4-tuple. -/
def ShipEntry.isQuad : ShipEntry → Bool
  | .triple _ _ _ => false
  | .quad _ _ _ _ => true

/-- The originating-request tick `shipment[3]` of a 4-tuple entry
(`0` for the malformed 3-tuple shape, which never occurs in reachable
states). -/
def ShipEntry.req_time : ShipEntry → Int
  | .triple _ _ _ => 0
  | .quad _ _ _ rq => rq

/-- A production batch of `process_manufacturing`:
`{'start', 'end', 'units', 'requested_times'}`. -/
structure Batch where
  start : Int
  end_time : Int
  units : List Nat
  requested_times : List Int
deriving DecidableEq, Repr

/-- `Node.__init__` state (lines 27-46).  `active_batches` is created
lazily by `process_manufacturing` in Python; starting it at `[]` is
behaviourally identical.  `inventory` is the scalar set in `__init__`
and touched again only by `reset`; the observable inventory is
`inventory_units`. -/
structure Node where
  node_id : Nat
  inventory : Int
  order_comm_lag : Int
  lag_time : Int
  inventory_units : List Nat := []
  customer_queue : List CQEntry := []
  order_queue : List OrderEntry := []
  incoming_shipments : List ShipEntry := []
  incoming_orders : List OrderEntry := []
  outgoing_shipments : List ShipEntry := []
  is_manufacturer : Bool := false
  manufacturing_time : Option Int := none
  production_queue : List (Int × Int) := []
  current_production_end : Option Int := none
  current_production_qty : Int := 0
  current_production_unit : Option Nat := none
  current_production_order : Option Nat := none
  active_batches : List Batch := []
deriving DecidableEq, Repr

instance : Inhabited Node :=
  ⟨{ node_id := 0, inventory := 0, order_comm_lag := 0, lag_time := 0 }⟩

/-- One row of `MetricsLogger.metrics`.  `order_to` and `arrive_at` hold
the last value written to the `order_to_node{i}` / `arrive_at_node{i}`
cells; `customer_request` and `customer_delivered` are the cells read by
`compute_cycle_times`. -/
structure MetricsRow where
  unit_id : UnitId
  customer_request : Option Int := none
  order_to : List (Nat × Int) := []
  arrive_at : List (Nat × (Int × Int)) := []
  manufacturing_completed : Option Int := none
  customer_delivered : Option (Int × Int) := none
deriving DecidableEq, Repr

instance : Inhabited MetricsRow := ⟨{ unit_id := UnitId.initial 0 0 }⟩

/-- Overwrite the cell for key `k` (Python `row[col] = value`). -/
def setCell {α : Type} (l : List (Nat × α)) (k : Nat) (v : α) : List (Nat × α) :=
  l.filter (fun p => p.1 ≠ k) ++ [(k, v)]

/-- One row of `MultiNodeSimulation.stats` (lines 225-231). -/
structure StatsRow where
  time : Int
  inventories : List Nat
  customer_queues : List Nat
  incoming_shipments : List Nat
  incoming_orders : List Nat
deriving DecidableEq, Repr

/-- `MultiNodeSimulation` state. -/
structure Sim where
  num_nodes : Nat
  initial_inventories : List Int
  manufacturing_time : Int
  max_demand : Int
  seed : Option Int
  nodes : List Node
  time : Int
  max_time : Int
  stats : List StatsRow
  customer_demand_history : List Int
  tracked_units : List TrackedUnit
  metrics : List MetricsRow
deriving DecidableEq, Repr

namespace Node

/-- `Node.receive_shipments` (lines 47-57) on the raw queue: pops from
the front while the head's arrival time is `≤ current_time`, raising on
a non-4-tuple.  Returns the `(unit, requested_time)` pairs (appended to
`inventory_units` by the caller) and the remaining queue. -/
def receive_shipments_aux (current_time : Int) :
    List ShipEntry → Except String (List (Nat × Int) × List ShipEntry)
  | [] => .ok ([], [])
  | e :: rest =>
    if e.arrival_time ≤ current_time then
      match e with
      | .triple _ _ _ => .error "Unexpected incoming_shipments tuple length: 3"
      | .quad _ u _ rq => do
          let (rs, r) ← receive_shipments_aux current_time rest
          .ok ((u, rq) :: rs, r)
    else .ok ([], e :: rest)

/-- `Node.receive_orders` (lines 59-64): pops while due, returning
`(sent_time, order)` pairs and the remaining queue. -/
def receive_orders_aux (current_time : Int) :
    List OrderEntry → List (Int × Nat) × List OrderEntry
  | [] => ([], [])
  | e :: rest =>
    if e.arrival_time ≤ current_time then
      let (os, r) := receive_orders_aux current_time rest
      ((e.sent_time, e.unit) :: os, r)
    else ([], e :: rest)

/-- Result of `fulfill_customer_queue`: the node's new queue and
inventory, the entries appended to the downstream node's
`incoming_shipments`, the updated unit store, and the returned
`shipped_units` list of `(arrival_time, unit, shipped_time,
requested_time)` tuples. -/
structure FulfillResult where
  customer_queue : List CQEntry
  inventory_units : List Nat
  ships : List ShipEntry
  store : List TrackedUnit
  shipped : List (Int × Nat × Int × Int)
deriving DecidableEq, Repr

/-- Update one unit in the store (Python mutates the shared object). -/
def updateUnit (store : List TrackedUnit) (h : Nat) (f : TrackedUnit → TrackedUnit) :
    List TrackedUnit :=
  store.set h (f (store.getD h default))

/-- `Node.fulfill_customer_queue` (lines 75-90): while both the customer
queue and `inventory_units` are non-empty, pop the head of each; with a
downstream node, ship the inventory unit there arriving at
`t + lag_time`; at node 1 (`downstream_node is None`) stamp
`t_given_to_actual_customer = t` on the inventory unit. -/
def fulfill_customer_queue (t lag : Int) (has_downstream : Bool) :
    List CQEntry → List Nat → List TrackedUnit → FulfillResult
  | [], inv, store => ⟨[], inv, [], store, []⟩
  | c :: cq, [], store => ⟨c :: cq, [], [], store, []⟩
  | c :: cq, h :: inv, store =>
    if has_downstream then
      let r := fulfill_customer_queue t lag true cq inv store
      ⟨r.customer_queue, r.inventory_units,
        ShipEntry.quad (t + lag) h t c.requested_time :: r.ships, r.store,
        (t + lag, h, t, c.requested_time) :: r.shipped⟩
    else
      let store' := updateUnit store h
        (fun u => { u with t_given_to_actual_customer := some t })
      let r := fulfill_customer_queue t lag false cq inv store'
      ⟨r.customer_queue, r.inventory_units, r.ships, r.store,
        (t, h, t, c.requested_time) :: r.shipped⟩

/-- Helper for the batch-grouping loop: the current run (arrival time
and the units/requested times collected so far, in reverse) is carried
while scanning the rest of the queue; a differing arrival time closes
the current batch and opens a new run. -/
def drain_aux (t mt : Int) (cur_arrival : Int) (cur_units : List Nat)
    (cur_reqs : List Int) : List CQEntry → List Batch
  | [] => [{ start := t, end_time := t + mt,
             units := cur_units.reverse, requested_times := cur_reqs.reverse }]
  | c :: rest =>
    if c.arrival_time = cur_arrival then
      drain_aux t mt cur_arrival (c.unit :: cur_units)
        (c.requested_time :: cur_reqs) rest
    else
      { start := t, end_time := t + mt,
        units := cur_units.reverse, requested_times := cur_reqs.reverse }
        :: drain_aux t mt c.arrival_time [c.unit] [c.requested_time] rest

/-- The batch-grouping loop of `process_manufacturing` (lines 109-124):
repeatedly pop the maximal run of queue entries sharing the current
head's arrival time and open one batch (`start = t`,
`end = t + manufacturing_time`) for it, until the queue is empty.  (The
`if batch_units:` guard is always true: a run contains at least its
head.) -/
def drain_batches (t mt : Int) : List CQEntry → List Batch
  | [] => []
  | c :: rest => drain_aux t mt c.arrival_time [c.unit] [c.requested_time] rest

/-- Result of `process_manufacturing`. -/
structure ManufResult where
  active_batches : List Batch
  customer_queue : List CQEntry
  ships : List ShipEntry
  store : List TrackedUnit
  completed : List Nat
deriving DecidableEq, Repr

/-- `Node.process_manufacturing` (lines 92-126).  Step 1 ships every
batch with `end ≤ t` (each unit gets `t_manufacturing_completed = end`
and an `incoming_shipments` entry `(end + lag_time, unit, end,
requested_time)` at the downstream node); the `list.remove` loop leaves
exactly the batches with `end > t`.  Step 2 drains the whole customer
queue into new batches.  `mt` is the node's `manufacturing_time` (always
set on the manufacturer). -/
def process_manufacturing (t lag mt : Int) (batches : List Batch)
    (cq : List CQEntry) (store : List TrackedUnit) : ManufResult :=
  let to_ship := batches.filter (fun b => t ≥ b.end_time)
  let remaining := batches.filter (fun b => ¬ t ≥ b.end_time)
  let store' := to_ship.foldl (fun st b =>
    (b.units.zip b.requested_times).foldl (fun st2 p =>
      updateUnit st2 p.1
        (fun u => { u with t_manufacturing_completed := some b.end_time })) st) store
  let ships := to_ship.flatMap (fun b =>
    (b.units.zip b.requested_times).map (fun p =>
      ShipEntry.quad (b.end_time + lag) p.1 b.end_time p.2))
  let completed := to_ship.flatMap (fun b =>
    (b.units.zip b.requested_times).map (·.1))
  ⟨remaining ++ drain_batches t mt cq, [], ships, store', completed⟩

end Node

namespace Sim

/-- Replace node `i` by `f` of it (Python mutates `self.nodes[i]`). -/
def updateNode (s : Sim) (i : Nat) (f : Node → Node) : Sim :=
  { s with nodes := s.nodes.set i (f (s.nodes.getD i default)) }

/-- Update a unit in the engine's store. -/
def updateStore (s : Sim) (h : Nat) (f : TrackedUnit → TrackedUnit) : Sim :=
  { s with tracked_units := Node.updateUnit s.tracked_units h f }

/-- Update the metrics row of unit handle `h` (rows are parallel to
`tracked_units`, as `add_unit` is called exactly when a unit is
appended). -/
def updateMetrics (s : Sim) (h : Nat) (f : MetricsRow → MetricsRow) : Sim :=
  { s with metrics := s.metrics.set h (f (s.metrics.getD h default)) }

/-- The per-node inventory-seeding loop of `__init__` (lines 152-160):
one `('init_{i+1}', j)` unit per point of initial inventory, appended to
node `i`'s inventory, the tracked-unit store, and the metrics (with no
customer request timestamp). -/
def seed_body (initial_inventories : List Int)
    (acc : List Node × List TrackedUnit × List MetricsRow) (i : Nat) :
    List Node × List TrackedUnit × List MetricsRow :=
  let cnt := (initial_inventories.getD i 0).toNat
  let handles := (List.range cnt).map (acc.2.1.length + ·)
  let units := (List.range cnt).map (fun j =>
    ({ id := UnitId.initial (i + 1) j } : TrackedUnit))
  let newRows := (List.range cnt).map (fun j =>
    ({ unit_id := UnitId.initial (i + 1) j } : MetricsRow))
  (acc.1.set i { acc.1.getD i default with inventory_units := handles },
    acc.2.1 ++ units, acc.2.2 ++ newRows)

/-- `MultiNodeSimulation.__init__` (lines 129-160).  The `assert` on
line 132 is the only validation; it raises `AssertionError` when the
chained length equality fails.  Nodes are built with
`is_manufacturer = (i == num_nodes-1)`; then the seeding loop mints the
initial inventory units. -/
def init (num_nodes : Nat) (initial_inventories order_comm_lags lag_times : List Int)
    (max_time manufacturing_time max_demand : Int) (seed : Option Int) :
    Except String Sim :=
  if num_nodes = initial_inventories.length ∧
      initial_inventories.length = order_comm_lags.length ∧
      order_comm_lags.length = lag_times.length then
    let baseNodes : List Node := (List.range num_nodes).map (fun i =>
      { node_id := i + 1,
        inventory := initial_inventories.getD i 0,
        order_comm_lag := order_comm_lags.getD i 0,
        lag_time := lag_times.getD i 0,
        is_manufacturer := i == num_nodes - 1,
        manufacturing_time :=
          if i = num_nodes - 1 then some manufacturing_time else none })
    let seeded := (List.range num_nodes).foldl
      (seed_body initial_inventories) (baseNodes, [], [])
    .ok { num_nodes := num_nodes,
          initial_inventories := initial_inventories,
          manufacturing_time := manufacturing_time,
          max_demand := max_demand,
          seed := seed,
          nodes := seeded.1,
          time := 0,
          max_time := max_time,
          stats := [],
          customer_demand_history := [],
          tracked_units := seeded.2.1,
          metrics := seeded.2.2 }
  else .error "AssertionError"

/-- Step phase 0 (lines 163-184): record the demand, mint one
`TrackedUnit` (and metrics row, with `order_to_node1 = t`) per demanded
unit (`range(customer_demand)`, empty for non-positive demand), enqueue
each at node 1's customer queue, and — when there is more than one
node — append the order `(t + nodes[0].order_comm_lag, unit, t)` to
node 2's `incoming_orders` and stamp the unit's
`t_order_to_supplier` / `t_order_arrived_at_supplier`. -/
def stepPhase0 (s : Sim) (t demand : Int) : Sim :=
  let s := { s with customer_demand_history := s.customer_demand_history ++ [demand] }
  let n := demand.toNat
  let base := s.tracked_units.length
  let newUnits := (List.range n).map (fun i =>
    ({ id := UnitId.demand t i, t_demand_actual_customer := some t } : TrackedUnit))
  let newRows := (List.range n).map (fun i =>
    ({ unit_id := UnitId.demand t i, customer_request := some t,
       order_to := [(1, t)] } : MetricsRow))
  let s := { s with tracked_units := s.tracked_units ++ newUnits,
                    metrics := s.metrics ++ newRows }
  (List.range n).foldl (fun s i =>
    let h := base + i
    let s := s.updateNode 0 (fun nd =>
      { nd with customer_queue := nd.customer_queue ++ [⟨t, 1, h, t⟩] })
    if s.num_nodes > 1 then
      let arrival := t + (s.nodes.getD 0 default).order_comm_lag
      let s := s.updateNode 1 (fun nd =>
        { nd with incoming_orders := nd.incoming_orders ++ [⟨arrival, h, t⟩] })
      s.updateStore h (fun u =>
        { u with t_order_to_supplier := some t,
                 t_order_arrived_at_supplier := some arrival })
    else s) s

/-- Step phase 1 (lines 186-190): every node (in list order) receives
the due shipments into its inventory; each `(unit, requested_time)`
arrival is logged as `arrive_at_node{node_id} = (t, requested_time)`.
On a malformed tuple the Python exception propagates; here the whole
`step` returns that error. -/
def stepPhase1 (s : Sim) (t : Int) : Except String Sim :=
  (List.range s.nodes.length).foldlM (fun s i => do
    let nd := s.nodes.getD i default
    let (received, rest) ← Node.receive_shipments_aux t nd.incoming_shipments
    let s := s.updateNode i (fun n =>
      { n with incoming_shipments := rest,
               inventory_units := n.inventory_units ++ received.map (·.1) })
    .ok (received.foldl (fun s p =>
      s.updateMetrics p.1 (fun r =>
        { r with arrive_at := setCell r.arrive_at nd.node_id (t, p.2) })) s)) s

/-- Step phase 2 (lines 192-203): for `i` in `1..num_nodes-1`, node
`i+1` (1-based `node_id = i+1`) receives its due orders; each is
enqueued as local demand `(t, 1, unit, sent_time)`, logged as
`order_to_node{node_id} = t`, and — unless the node is the last one —
propagated upstream via `propagate_order_upstream` (arrival
`t + node.order_comm_lag`, with the unit's supplier-order timestamps
overwritten). -/
def stepPhase2 (s : Sim) (t : Int) : Sim :=
  (List.range' 1 (s.num_nodes - 1)).foldl (fun s i =>
    let nd := s.nodes.getD i default
    let (orders, rest) := Node.receive_orders_aux t nd.incoming_orders
    let s := s.updateNode i (fun n => { n with incoming_orders := rest })
    orders.foldl (fun s p =>
      let (sent, h) := p
      let s := s.updateNode i (fun n =>
        { n with customer_queue := n.customer_queue ++ [⟨t, 1, h, sent⟩] })
      let s := s.updateMetrics h (fun r =>
        { r with order_to := setCell r.order_to nd.node_id t })
      if i < s.num_nodes - 1 then
        let arrival := t + (s.nodes.getD i default).order_comm_lag
        let s := s.updateNode (i + 1) (fun n =>
          { n with incoming_orders := n.incoming_orders ++ [⟨arrival, h, t⟩] })
        s.updateStore h (fun u =>
          { u with t_order_to_supplier := some t,
                   t_order_arrived_at_supplier := some arrival })
      else s) s) s

/-- Step phase 3 (lines 205-222): for `i` from `num_nodes-1` down to 0,
the manufacturer runs `process_manufacturing(t, self.nodes[i-1])`
(Python's `nodes[-1]` wraps to the last node when `i = 0`, i.e. the
single-node manufacturer ships to itself) and each completed unit is
logged as `manufacturing_completed = t`; every other node runs
`fulfill_customer_queue` (downstream `None` exactly at `i = 0`), and at
`i = 0` each shipped tuple is logged as
`customer_delivered = (t, requested_time)`. -/
def phase3_body (t : Int) (s : Sim) (i : Nat) : Sim :=
  let nd := s.nodes.getD i default
  if nd.is_manufacturer then
    let downIdx := if i = 0 then s.nodes.length - 1 else i - 1
    let r := Node.process_manufacturing t nd.lag_time
      (nd.manufacturing_time.getD 0) nd.active_batches nd.customer_queue
      s.tracked_units
    let s := { s with tracked_units := r.store }
    let s := s.updateNode i (fun n =>
      { n with active_batches := r.active_batches,
               customer_queue := r.customer_queue })
    let s := s.updateNode downIdx (fun n =>
      { n with incoming_shipments := n.incoming_shipments ++ r.ships })
    r.completed.foldl (fun s h =>
      s.updateMetrics h (fun row =>
        { row with manufacturing_completed := some t })) s
  else
    let r := Node.fulfill_customer_queue t nd.lag_time (decide (i ≠ 0))
      nd.customer_queue nd.inventory_units s.tracked_units
    let s := { s with tracked_units := r.store }
    let s := s.updateNode i (fun n =>
      { n with customer_queue := r.customer_queue,
               inventory_units := r.inventory_units })
    let s := if i ≠ 0 then
        s.updateNode (i - 1) (fun n =>
          { n with incoming_shipments := n.incoming_shipments ++ r.ships })
      else s
    if i = 0 then
      r.shipped.foldl (fun s e =>
        s.updateMetrics e.2.1 (fun row =>
          { row with customer_delivered := some (t, e.2.2.2) })) s
    else s

def stepPhase3 (s : Sim) (t : Int) : Sim :=
  ((List.range s.num_nodes).reverse).foldl (phase3_body t) s

/-- Step phase 4 (lines 224-232): append the per-tick stats row and
advance the tick. -/
def stepPhase4 (s : Sim) (t : Int) : Sim :=
  let row : StatsRow :=
    { time := t,
      inventories := s.nodes.map (·.inventory_units.length),
      customer_queues := s.nodes.map (·.customer_queue.length),
      incoming_shipments := s.nodes.map (·.incoming_shipments.length),
      incoming_orders := s.nodes.map (·.incoming_orders.length) }
  { s with stats := s.stats ++ [row], time := t + 1 }

/-- `MultiNodeSimulation.step` (lines 162-232) with the effective demand
for the tick passed explicitly (the caller's override; the random branch
merely supplies such a value). -/
def step (s : Sim) (demand : Int) : Except String Sim := do
  let t := s.time
  let s0 := stepPhase0 s t demand
  let s1 ← stepPhase1 s0 t
  .ok (stepPhase4 (stepPhase3 (stepPhase2 s1 t) t) t)

/-- `MultiNodeSimulation.is_finished` (lines 234-235). -/
def is_finished (s : Sim) : Bool := s.time ≥ s.max_time

/-- `MultiNodeSimulation.reset` (lines 237-250): per node, restore the
scalar `inventory`, clear `customer_queue`, `order_queue`,
`incoming_shipments`, `incoming_orders`, and for the manufacturer clear
`production_queue` and the `current_production_*` scalars; then zero the
tick and clear `stats` and `customer_demand_history`.  (`inventory_units`,
`active_batches`, `tracked_units` and the metrics are not touched.) -/
def reset (s : Sim) : Sim :=
  { s with
    nodes := (List.range s.nodes.length).map (fun i =>
      let nd := s.nodes.getD i default
      let nd := { nd with
        inventory := s.initial_inventories.getD i 0,
        customer_queue := [], order_queue := [],
        incoming_shipments := [], incoming_orders := [] }
      if nd.is_manufacturer then
        { nd with production_queue := [], current_production_end := none,
                  current_production_qty := 0 }
      else nd),
    time := 0, stats := [], customer_demand_history := [] }

end Sim

namespace MetricsLogger

/-- `customer_node1_cycle` of `MetricsLogger.compute_cycle_times`
(lines 61-62): over the rows in order, every non-null
`customer_delivered` tuple `(a, b)` contributes `a - b`. -/
def customer_node1_cycle (rows : List MetricsRow) : List Int :=
  rows.filterMap (fun r => r.customer_delivered.map (fun d => d.1 - d.2))

/-- `full_cycle` of `MetricsLogger.compute_cycle_times` (lines 64-68):
rows whose `customer_request` is non-null and whose
`customer_delivered` is a tuple contribute `delivered[0] - request`. -/
def full_cycle (rows : List MetricsRow) : List Int :=
  rows.filterMap (fun r =>
    match r.customer_request, r.customer_delivered with
    | some req, some d => some (d.1 - req)
    | _, _ => none)

end MetricsLogger

instance : Inhabited Sim :=
  ⟨{ num_nodes := 0, initial_inventories := [], manufacturing_time := 0,
     max_demand := 0, seed := none, nodes := [], time := 0, max_time := 0,
     stats := [], customer_demand_history := [], tracked_units := [],
     metrics := [] }⟩

/-- How many times the collections of a single node hold the unit with
handle `u`: on-hand inventory, the demand (customer) queue, the pending
inbound orders, the in-flight inbound shipments, and the units assigned
to open production batches. -/
def Node.unit_occurrences (nd : Node) (u : Nat) : Nat :=
  nd.inventory_units.count u
    + nd.customer_queue.countP (fun c => c.unit = u)
    + nd.incoming_orders.countP (fun o => o.unit = u)
    + nd.incoming_shipments.countP (fun e => e.unit = u)
    + (nd.active_batches.map (fun b => b.units.count u)).sum

/-- Total number of collection slots across all nodes holding unit `u`. -/
def Sim.unit_occurrences (s : Sim) (u : Nat) : Nat :=
  (s.nodes.map (·.unit_occurrences u)).sum

/-- 1 when unit `u` has been handed to the end customer. -/
def Sim.delivered_flag (s : Sim) (u : Nat) : Nat :=
  if ((s.tracked_units.getD u default).t_given_to_actual_customer).isSome then 1 else 0

/-- The conservation property claimed in the spec: every unit ever
created is, at any instant, held by exactly one queue or inventory
collection, or delivered — counted exactly once overall. -/
def Sim.conservation (s : Sim) : Prop :=
  ∀ u, u < s.tracked_units.length →
    s.unit_occurrences u + s.delivered_flag u = 1

/-- States reachable through the engine's public operations:
construction, stepping, and reset. -/
inductive Reachable : Sim → Prop where
  | init : ∀ (n : Nat) (invs cls lts : List Int) (mt mft md : Int)
      (sd : Option Int) (s : Sim),
      Sim.init n invs cls lts mt mft md sd = .ok s → Reachable s
  | step : ∀ (s : Sim) (d : Int) (s' : Sim),
      Reachable s → Sim.step s d = .ok s' → Reachable s'
  | reset : ∀ (s : Sim), Reachable s → Reachable (Sim.reset s)

/-- All in-flight shipment entries of every node are 4-tuples. -/
def Sim.quadInv (s : Sim) : Prop :=
  ∀ nd ∈ s.nodes, ∀ e ∈ nd.incoming_shipments, e.isQuad = true

/-- Comparison of queue entries by scheduled arrival tick. -/
def shipLE (a b : ShipEntry) : Prop := a.arrival_time ≤ b.arrival_time

/-- Comparison of order entries by scheduled arrival tick. -/
def orderLE (a b : OrderEntry) : Prop := a.arrival_time ≤ b.arrival_time

/-- The lag/sortedness invariant of the queues, stated over the node list
with explicit bound parameters: every inbound-order entry of node `i`
arrived from node `i-1` no later than tick `tb - 1` (so its scheduled
arrival is at most `(tb - 1) + order_comm_lag`), every inbound-shipment
entry of node `i` was sent by node `(i+1) % len` no later than `tb - 1`,
both queues are sorted by scheduled arrival, every open production batch
completes at or after `bb`, and only the last node is a manufacturer
(with positive production time), all other nodes having no batches. -/
structure QueuesOK (tb bb : Int) (nodes : List Node) : Prop where
  manu_iff : ∀ i, i < nodes.length →
    ((nodes.getD i default).is_manufacturer = true ↔ i = nodes.length - 1)
  manu_mt : ∀ i, i < nodes.length →
    (nodes.getD i default).is_manufacturer = true →
    1 ≤ (nodes.getD i default).manufacturing_time.getD 0
  batches_empty : ∀ i, i < nodes.length →
    (nodes.getD i default).is_manufacturer = false →
    (nodes.getD i default).active_batches = []
  batches_future : ∀ i, i < nodes.length →
    ∀ b ∈ (nodes.getD i default).active_batches, bb ≤ b.end_time
  orders_bnd : ∀ i, i < nodes.length →
    ∀ e ∈ (nodes.getD i default).incoming_orders,
      e.arrival_time ≤ (tb - 1) + (nodes.getD (i - 1) default).order_comm_lag
  orders_sorted : ∀ i, i < nodes.length →
    List.Pairwise orderLE (nodes.getD i default).incoming_orders
  ships_bnd : ∀ i, i < nodes.length →
    ∀ e ∈ (nodes.getD i default).incoming_shipments,
      e.arrival_time ≤ (tb - 1) + (nodes.getD ((i + 1) % nodes.length) default).lag_time
  ships_sorted : ∀ i, i < nodes.length →
    List.Pairwise shipLE (nodes.getD i default).incoming_shipments

/-- The whole-state lag invariant: queues bounded by the previous tick
and batches completing no earlier than the current tick. -/
structure LagInv (s : Sim) : Prop where
  time_nonneg : 0 ≤ s.time
  num_eq : s.num_nodes = s.nodes.length
  queues : QueuesOK s.time s.time s.nodes

/-- A finished engine: single node, horizon 0. -/
def demoFinished : Sim := (Sim.init 1 [0] [1] [1] 0 3 50 none).toOption.getD default

/-- The result of stepping the finished engine once more. -/
def demoFinishedStep : Sim := (Sim.step demoFinished 0).toOption.getD default

/-- A small two-node engine used as a concrete witness state. -/
def demoSim : Sim := (Sim.init 2 [1, 0] [1, 1] [1, 1] 100 3 50 none).toOption.getD default

/-- One step of the two-node engine with demand override 1. -/
def demoSimStep : Sim := (Sim.step demoSim 1).toOption.getD default

/-- One step of the two-node engine with the negative override -2. -/
def demoSimNeg : Sim := (Sim.step demoSim (-2)).toOption.getD default

/-! ## Theorems -/

/-- C1: the claim states that a single-node simulation with initial
inventory 5 and demand override 3 at tick 0 observes inventory 2, a
zero demand queue, and a delivered unit with full-cycle 0.  It is false:
at this concrete input the tick-0 stats row records inventory 5 (the
single node is the manufacturer, so the demand is batched, nothing is
fulfilled from stock) and the full-cycle series is empty. -/
theorem C1_counterexample :
    ((Sim.init 1 [5] [1] [1] 100 3 50 none).toOption.bind (fun s => (Sim.step s 3).toOption)).map
        (fun s => (s.stats.map (fun r => (r.inventories, r.customer_queues)),
                   MetricsLogger.full_cycle s.metrics))
      = some ([([5], [0])], []) ∧
    ([([5], [0])], ([] : List Int)) ≠ ([([2], [0])], [0]) :=
  ⟨rfl, by decide⟩

/-- C1 (amended): with a single node the node is the manufacturer, so
the tick-0 observation shows inventory 5 and a zero demand queue, no
unit is delivered (empty full-cycle series), and the three demanded
units are grouped into one production batch started at tick 0 and
completing at tick 3 (the manufacturing time). -/
theorem C1_amended :
    ((Sim.init 1 [5] [1] [1] 100 3 50 none).toOption.bind (fun s => (Sim.step s 3).toOption)).map
        (fun s =>
          (s.stats.map (fun r => (r.inventories, r.customer_queues)),
           MetricsLogger.full_cycle s.metrics,
           s.nodes.map (fun nd =>
             nd.active_batches.map (fun b => (b.start, b.end_time, b.units)))))
      = some ([([5], [0])], [], [[(0, 3, [5, 6, 7])]]) := rfl

/-- C2: the claim states that `step` after `is_finished()` leaves all
observable state unchanged.  It is false: with horizon 0 the fresh
engine is already finished, yet `step` advances the tick to 1 and
appends a stats row and a demand-history entry. -/
theorem C2_counterexample :
    ((Sim.init 1 [0] [1] [1] 0 3 50 none).toOption.map (fun s =>
        (Sim.is_finished s, s.time, s.stats.length,
         (Sim.step s 0).toOption.map
           (fun s2 => (s2.time, s2.stats.length, s2.customer_demand_history)))))
      = some (true, 0, 0, some (1, 1, [0])) ∧ (1 : Int) ≠ 0 :=
  ⟨rfl, by decide⟩

/-- C3: `reset` misses the observable state.  After one step of a
two-node simulation (initial inventories `[1, 0]`, all lags 0) node 1
has delivered its seeded unit and the manufacturer holds one open
batch; `reset` then restores only the vestigial scalar `inventory`
field (back to `[1, 0]`) while the observable per-node inventory-unit
lists stay empty (`[0, 0]` instead of the original `[1, 0]` counts) and
the manufacturer's open batch survives (`[0, 1]` batches per node),
though the tick, stats and demand history are cleared. -/
theorem C3_code_divergence :
    ((Sim.init 2 [1, 0] [0, 0] [0, 0] 100 3 50 none).toOption.bind
        (fun s => (Sim.step s 1).toOption)).map
        (fun s =>
          ((Sim.reset s).time, (Sim.reset s).stats.length,
           (Sim.reset s).customer_demand_history.length,
           (Sim.reset s).nodes.map (·.inventory_units.length),
           (Sim.reset s).nodes.map (·.inventory),
           (Sim.reset s).nodes.map (fun nd => nd.active_batches.length)))
      = some (0, 0, 0, [0, 0], [1, 0], [0, 1]) ∧ ([0, 0] : List Nat) ≠ [1, 0] :=
  ⟨rfl, by decide⟩

/-- C4: the claim states every created unit is held by exactly one
collection (or delivered), never counted twice.  It is false: after one
step of a two-node simulation with no inventory and demand override 1,
the single created unit (handle 0) sits simultaneously in node 1's
demand queue and in node 2's inbound-order queue — two collections —
and is not delivered. -/
theorem C4_counterexample :
    ((Sim.init 2 [0, 0] [1, 1] [1, 1] 100 3 50 none).toOption.bind
        (fun s => (Sim.step s 1).toOption)).map
        (fun s => (s.tracked_units.length, s.unit_occurrences 0, s.delivered_flag 0,
                   (s.nodes.map (fun nd => nd.customer_queue.countP (fun c => c.unit = 0))),
                   (s.nodes.map (fun nd => nd.incoming_orders.countP (fun o => o.unit = 0)))))
      = some (1, 2, 0, [1, 0], [0, 1]) ∧ (2 : Nat) + 0 ≠ 1 :=
  ⟨rfl, by decide⟩

/-- C6: the claim states a negative demand override is rejected with the
prior state unchanged.  It is false: `step` with override `-1` succeeds,
appends `-1` to the demand history, appends a stats row, and advances
the tick (creating no units, since `range(-1)` is empty). -/
theorem C6_counterexample :
    ((Sim.init 1 [5] [1] [1] 100 3 50 none).toOption.bind (fun s => (Sim.step s (-1)).toOption)).map
        (fun s => (s.customer_demand_history, s.time, s.stats.length,
                   s.tracked_units.length))
      = some ([-1], 1, 1, 5) ∧ ([-1] : List Int) ≠ [] :=
  ⟨rfl, by decide⟩

/-- C7: the claim states construction also fails on non-positive lags,
production time or horizon.  It is false: a configuration with lags
`-1`, production time 0 and horizon 0 (and matching lengths) constructs
an engine without any error. -/
theorem C7_counterexample :
    (Sim.init 1 [0] [-1] [-1] 0 0 0 none).toOption.isSome = true := rfl

/-- C7 (amended): construction fails (with the `assert`'s error) exactly
when the lag/inventory array lengths mismatch the node count; any
configuration with matching lengths — including non-positive lags,
production time, or horizon — produces a constructed engine. -/
theorem C7_amended (n : Nat) (invs cls lts : List Int) (mt mft md : Int)
    (sd : Option Int) :
    (Sim.init n invs cls lts mt mft md sd).toOption.isSome = true ↔
      (n = invs.length ∧ invs.length = cls.length ∧ cls.length = lts.length) := by
  unfold Sim.init
  split
  next h => simpa [Except.toOption] using h
  next h => simpa [Except.toOption] using h

/-- C8: the claim states the node-1 cycle and full cycle series are
always equal.  It is false: after one step of a two-node simulation
(initial inventories `[1, 0]`, all lags 0, demand 1) the delivered unit
is the seeded inventory unit, which has no customer-request timestamp,
so the node-1 cycle series is `[0]` while the full-cycle series is
empty. -/
theorem C8_counterexample :
    ((Sim.init 2 [1, 0] [0, 0] [0, 0] 100 3 50 none).toOption.bind
        (fun s => (Sim.step s 1).toOption)).map
        (fun s => (MetricsLogger.customer_node1_cycle s.metrics,
                   MetricsLogger.full_cycle s.metrics))
      = some ([0], []) ∧ ([0] : List Int) ≠ [] :=
  ⟨rfl, by decide⟩

/-- C8 (amended): the two series agree exactly on rows whose own
customer-request timestamp is present and equals the requested
timestamp recorded in the delivery tuple; under that condition (which
fails for delivered pre-seeded inventory units) the series coincide. -/
theorem C8_amended (rows : List MetricsRow)
    (h : ∀ r ∈ rows, ∀ d : Int × Int, r.customer_delivered = some d →
      r.customer_request = some d.2) :
    MetricsLogger.customer_node1_cycle rows = MetricsLogger.full_cycle rows := by
  induction rows with
  | nil => rfl
  | cons r rs ih =>
    have hr := h r (List.mem_cons_self r rs)
    have hrs : ∀ x ∈ rs, ∀ d : Int × Int, x.customer_delivered = some d →
        x.customer_request = some d.2 :=
      fun x hx => h x (List.mem_cons_of_mem r hx)
    unfold MetricsLogger.customer_node1_cycle MetricsLogger.full_cycle
    simp only [List.filterMap_cons]
    cases hd : r.customer_delivered with
    | none =>
      cases hreq : r.customer_request <;>
        simpa [hd, hreq] using ih hrs
    | some d =>
      have := hr d hd
      simpa [hd, this] using ih hrs

/-- Witness for the amended C8 theorem at a concrete row list. -/
theorem C8_amended_witness :
    (∀ r ∈ [({ unit_id := UnitId.demand 0 0, customer_request := some 0,
               customer_delivered := some (3, 0) } : MetricsRow)],
        ∀ d : Int × Int, r.customer_delivered = some d →
          r.customer_request = some d.2) ∧
    MetricsLogger.customer_node1_cycle
        [({ unit_id := UnitId.demand 0 0, customer_request := some 0,
            customer_delivered := some (3, 0) } : MetricsRow)]
      = MetricsLogger.full_cycle
        [({ unit_id := UnitId.demand 0 0, customer_request := some 0,
            customer_delivered := some (3, 0) } : MetricsRow)] :=
  ⟨by decide, C8_amended _ (by decide)⟩

/-! ### Fold and projection infrastructure -/

theorem foldl_pres {α β γ : Type _} (g : β → γ) (f : β → α → β)
    (hf : ∀ b a, g (f b a) = g b) (l : List α) (b : β) :
    g (l.foldl f b) = g b := by
  induction l generalizing b with
  | nil => rfl
  | cons a l ih => rw [List.foldl_cons, ih, hf]

theorem foldlM_pres {α β γ ε : Type _} (g : β → γ) (f : β → α → Except ε β)
    (hf : ∀ b a b', f b a = .ok b' → g b' = g b) (l : List α) :
    ∀ (b b' : β), l.foldlM f b = .ok b' → g b' = g b := by
  induction l with
  | nil =>
    intro b b' h
    simp only [List.foldlM_nil, pure, Except.pure, Except.ok.injEq] at h
    rw [h]
  | cons a l ih =>
    intro b b' h
    rw [List.foldlM_cons] at h
    cases hfa : f b a with
    | error e => rw [hfa] at h; simp [Bind.bind, Except.bind] at h
    | ok b1 =>
      rw [hfa] at h
      simp only [Bind.bind, Except.bind] at h
      rw [ih b1 b' h, hf b a b1 hfa]

theorem set_map_getD_self {α β : Type _} [Inhabited α] (g : α → β) :
    ∀ (l : List α) (i : Nat), (l.map g).set i (g (l.getD i default)) = l.map g
  | [], i => by simp
  | x :: xs, 0 => by simp
  | x :: xs, i + 1 => by
    simp only [List.getD_cons_succ, List.map_cons, List.set_cons_succ,
      List.cons.injEq, true_and]
    exact set_map_getD_self g xs i

theorem updateUnit_map_id (store : List TrackedUnit) (h : Nat)
    (f : TrackedUnit → TrackedUnit) (hf : ∀ u, (f u).id = u.id) :
    (Node.updateUnit store h f).map (·.id) = store.map (·.id) := by
  unfold Node.updateUnit
  rw [List.map_set, hf]
  exact set_map_getD_self _ store h

theorem updateUnit_length (store : List TrackedUnit) (h : Nat)
    (f : TrackedUnit → TrackedUnit) :
    (Node.updateUnit store h f).length = store.length := by
  simp [Node.updateUnit]

/-- The projections of the engine state that the per-state bookkeeping
theorems track: tick, stats, demand history, the ids of all units ever
created, the metrics row count, and the structural configuration. -/
def Sim.obs (s : Sim) :
    Int × List StatsRow × List Int × List UnitId × Nat × Nat × Nat × Int × Int :=
  (s.time, s.stats, s.customer_demand_history, s.tracked_units.map (·.id),
   s.metrics.length, s.nodes.length, s.num_nodes, s.max_time,
   s.manufacturing_time)

theorem updateNode_obs (s : Sim) (i : Nat) (f : Node → Node) :
    (s.updateNode i f).obs = s.obs := by
  simp [Sim.obs, Sim.updateNode]

theorem updateStore_obs (s : Sim) (h : Nat) (f : TrackedUnit → TrackedUnit)
    (hf : ∀ u, (f u).id = u.id) : (s.updateStore h f).obs = s.obs := by
  simp [Sim.obs, Sim.updateStore, updateUnit_map_id _ _ _ hf]

theorem updateMetrics_obs (s : Sim) (h : Nat) (f : MetricsRow → MetricsRow) :
    (s.updateMetrics h f).obs = s.obs := by
  simp [Sim.obs, Sim.updateMetrics]

theorem fulfill_store_map_id (t lag : Int) (hd : Bool) :
    ∀ (cq : List CQEntry) (inv : List Nat) (store : List TrackedUnit),
      ((Node.fulfill_customer_queue t lag hd cq inv store).store).map (·.id)
        = store.map (·.id) := by
  intro cq
  induction cq with
  | nil => intro inv store; rfl
  | cons c cq ih =>
    intro inv store
    cases inv with
    | nil => rfl
    | cons h inv =>
      unfold Node.fulfill_customer_queue
      by_cases hdc : hd = true
      · subst hdc; simp only [if_pos rfl]; exact ih inv store
      · have hdf : hd = false := by revert hdc; cases hd <;> simp
        subst hdf
        simp only [Bool.false_eq_true, if_neg, ite_false]
        rw [ih inv _, updateUnit_map_id store h
          (fun u => { u with t_given_to_actual_customer := some t }) (fun u => rfl)]

theorem fulfill_store_length (t lag : Int) (hd : Bool) (cq : List CQEntry)
    (inv : List Nat) (store : List TrackedUnit) :
    ((Node.fulfill_customer_queue t lag hd cq inv store).store).length
      = store.length := by
  have := congrArg List.length (fulfill_store_map_id t lag hd cq inv store)
  simpa using this

theorem proc_store_map_id (t lag mt : Int) (batches : List Batch)
    (cq : List CQEntry) (store : List TrackedUnit) :
    ((Node.process_manufacturing t lag mt batches cq store).store).map (·.id)
      = store.map (·.id) := by
  unfold Node.process_manufacturing
  dsimp only
  refine foldl_pres (fun st => st.map (·.id)) _ ?_ _ store
  intro st b
  refine foldl_pres (fun st => st.map (·.id)) _ ?_ _ st
  intro st2 p
  exact updateUnit_map_id st2 p.1
    (fun u => { u with t_manufacturing_completed := some b.end_time }) (fun u => rfl)

theorem stepPhase0_obs (s : Sim) (t d : Int) :
    (Sim.stepPhase0 s t d).obs =
      (s.time, s.stats, s.customer_demand_history ++ [d],
       s.tracked_units.map (·.id)
         ++ (List.range d.toNat).map (fun i => UnitId.demand t i),
       s.metrics.length + d.toNat, s.nodes.length, s.num_nodes, s.max_time,
       s.manufacturing_time) := by
  unfold Sim.stepPhase0
  dsimp only
  rw [foldl_pres Sim.obs _ ?hb]
  case hb =>
    intro b i
    dsimp only
    split
    · rw [updateStore_obs, updateNode_obs, updateNode_obs]
      intro u; rfl
    · rw [updateNode_obs]
  simp [Sim.obs, Function.comp]

theorem stepPhase1_obs (s : Sim) (t : Int) (s' : Sim)
    (h : Sim.stepPhase1 s t = .ok s') : s'.obs = s.obs := by
  unfold Sim.stepPhase1 at h
  refine foldlM_pres Sim.obs _ ?_ _ s s' h
  intro b a b' hb
  dsimp only at hb
  cases haux : Node.receive_shipments_aux t (b.nodes.getD a default).incoming_shipments with
  | error e => rw [haux] at hb; simp [Bind.bind, Except.bind] at hb
  | ok pr =>
    obtain ⟨received, rest⟩ := pr
    rw [haux] at hb
    simp only [Bind.bind, Except.bind, Except.ok.injEq] at hb
    subst hb
    rw [foldl_pres Sim.obs _ (fun b2 p => updateMetrics_obs _ _ _) _ _,
      updateNode_obs]

theorem stepPhase2_obs (s : Sim) (t : Int) : (Sim.stepPhase2 s t).obs = s.obs := by
  unfold Sim.stepPhase2
  refine foldl_pres Sim.obs _ ?_ _ s
  intro b i
  dsimp only
  refine Eq.trans (foldl_pres Sim.obs _ ?_ _ _) (updateNode_obs _ _ _)
  intro b2 p
  obtain ⟨sent, hh⟩ := p
  dsimp only
  split
  · rw [updateStore_obs, updateNode_obs, updateMetrics_obs, updateNode_obs]
    intro u; rfl
  · rw [updateMetrics_obs, updateNode_obs]

theorem stepPhase3_obs (s : Sim) (t : Int) : (Sim.stepPhase3 s t).obs = s.obs := by
  unfold Sim.stepPhase3
  refine foldl_pres Sim.obs _ ?_ _ s
  intro b i
  unfold Sim.phase3_body
  dsimp only
  split
  · refine Eq.trans (foldl_pres Sim.obs _ (fun b2 h => updateMetrics_obs _ _ _) _ _) ?_
    rw [updateNode_obs, updateNode_obs]
    simp [Sim.obs, proc_store_map_id]
  · by_cases hi : i = 0
    · subst hi
      rw [if_pos rfl, if_neg (fun hcon => hcon rfl)]
      refine Eq.trans (foldl_pres Sim.obs _ (fun b2 e => updateMetrics_obs _ _ _) _ _) ?_
      rw [updateNode_obs]
      simp [Sim.obs, fulfill_store_map_id]
    · rw [if_neg hi, if_pos hi]
      rw [updateNode_obs, updateNode_obs]
      simp [Sim.obs, fulfill_store_map_id]

/-- Effect of one successful `step` on the tracked projections: the tick
advances by one, exactly one stats row and one demand-history entry are
appended, exactly `max demand 0` fresh units (ids `(t, i)`) are appended
to the unit store and the metrics, and the structural configuration is
unchanged. -/
theorem step_obs (s : Sim) (d : Int) (s' : Sim) (h : Sim.step s d = .ok s') :
    s'.time = s.time + 1 ∧
    s'.stats.length = s.stats.length + 1 ∧
    s'.customer_demand_history = s.customer_demand_history ++ [d] ∧
    s'.tracked_units.map (·.id)
      = s.tracked_units.map (·.id)
        ++ (List.range d.toNat).map (fun i => UnitId.demand s.time i) ∧
    s'.metrics.length = s.metrics.length + d.toNat ∧
    s'.nodes.length = s.nodes.length ∧
    s'.num_nodes = s.num_nodes ∧
    s'.max_time = s.max_time ∧
    s'.manufacturing_time = s.manufacturing_time := by
  simp only [Sim.step] at h
  cases hp : Sim.stepPhase1 (Sim.stepPhase0 s s.time d) s.time with
  | error e => rw [hp] at h; simp [Bind.bind, Except.bind] at h
  | ok s1 =>
    rw [hp] at h
    simp only [Bind.bind, Except.bind, Except.ok.injEq] at h
    subst h
    have hX : (Sim.stepPhase3 (Sim.stepPhase2 s1 s.time) s.time).obs =
        (s.time, s.stats, s.customer_demand_history ++ [d],
         s.tracked_units.map (·.id)
           ++ (List.range d.toNat).map (fun i => UnitId.demand s.time i),
         s.metrics.length + d.toNat, s.nodes.length, s.num_nodes, s.max_time,
         s.manufacturing_time) := by
      rw [stepPhase3_obs, stepPhase2_obs, stepPhase1_obs _ _ _ hp,
        stepPhase0_obs]
    simp only [Sim.obs, Prod.mk.injEq] at hX
    obtain ⟨hT, hS, hH, hU, hM, hN, hNum, hMax, hMt⟩ := hX
    refine ⟨?_, ?_, ?_, ?_, ?_, ?_, ?_, ?_, ?_⟩ <;>
      simp [Sim.stepPhase4, hT, hS, hH, hU, hM, hN, hNum, hMax, hMt]

/-- C2 (amended): calling `step` after `is_finished()` is true behaves
exactly like any other step — it advances the tick by one and appends
one stats row and the demand value to the history, rather than leaving
the state unchanged (the source never consults `is_finished`). -/
theorem C2_amended (s : Sim) (d : Int) (s' : Sim)
    (hfin : Sim.is_finished s = true) (h : Sim.step s d = .ok s') :
    s'.time = s.time + 1 ∧ s'.stats.length = s.stats.length + 1 ∧
    s'.customer_demand_history = s.customer_demand_history ++ [d] := by
  obtain ⟨h1, h2, h3, _⟩ := step_obs s d s' h
  exact ⟨h1, h2, h3⟩

/-- Witness: the horizon-0 engine is finished and stepping it mutates
the state as the amended C2 describes. -/
theorem C2_amended_witness :
    Sim.is_finished demoFinished = true ∧
    Sim.step demoFinished 0 = .ok demoFinishedStep ∧
    (demoFinishedStep.time = demoFinished.time + 1 ∧
     demoFinishedStep.stats.length = demoFinished.stats.length + 1 ∧
     demoFinishedStep.customer_demand_history
       = demoFinished.customer_demand_history ++ [0]) :=
  ⟨by decide, rfl, C2_amended demoFinished 0 demoFinishedStep (by decide) rfl⟩

/-- C4 (amended): the tracked-unit record is append-only — one
successful `step` with demand `d` appends exactly `max d 0` freshly
created units (ids `(t, 0), ..., (t, d-1)`) after the unchanged ids of
all previously created units, so every unit is created exactly once and
never removed from the engine's record; exclusive ownership by a single
queue, however, does not hold (see the counterexample: a unit can sit in
a demand queue and an upstream inbound-order queue simultaneously). -/
theorem C4_amended (s : Sim) (d : Int) (s' : Sim) (h : Sim.step s d = .ok s') :
    s'.tracked_units.map (·.id)
      = s.tracked_units.map (·.id)
        ++ (List.range d.toNat).map (fun i => UnitId.demand s.time i) :=
  (step_obs s d s' h).2.2.2.1

/-- Witness: the append-only behaviour at the two-node demo engine. -/
theorem C4_amended_witness :
    Sim.step demoSim 1 = .ok demoSimStep ∧
    demoSimStep.tracked_units.map (·.id)
      = demoSim.tracked_units.map (·.id)
        ++ (List.range (1 : Int).toNat).map (fun i => UnitId.demand demoSim.time i) :=
  ⟨rfl, C4_amended demoSim 1 demoSimStep rfl⟩

/-- C6 (amended): a negative demand override is not rejected — `step`
succeeds, appends the negative value to the demand history and a stats
row, and advances the tick; it merely creates no units (Python's
`range` of a negative number is empty), leaving the unit store and
metrics unchanged in size. -/
theorem C6_amended (s : Sim) (d : Int) (s' : Sim) (hd : d < 0)
    (h : Sim.step s d = .ok s') :
    s'.customer_demand_history = s.customer_demand_history ++ [d] ∧
    s'.tracked_units.length = s.tracked_units.length ∧
    s'.metrics.length = s.metrics.length ∧
    s'.time = s.time + 1 ∧
    s'.stats.length = s.stats.length + 1 := by
  obtain ⟨h1, h2, h3, h4, h5, _⟩ := step_obs s d s' h
  have hz : d.toNat = 0 := Int.toNat_of_nonpos (le_of_lt hd)
  refine ⟨h3, ?_, ?_, h1, h2⟩
  · have := congrArg List.length h4
    simpa [hz] using this
  · simpa [hz] using h5

/-- Witness: stepping the demo engine with override `-2`. -/
theorem C6_amended_witness :
    (-2 : Int) < 0 ∧ Sim.step demoSim (-2) = .ok demoSimNeg ∧
    (demoSimNeg.customer_demand_history
        = demoSim.customer_demand_history ++ [-2] ∧
     demoSimNeg.tracked_units.length = demoSim.tracked_units.length ∧
     demoSimNeg.metrics.length = demoSim.metrics.length ∧
     demoSimNeg.time = demoSim.time + 1 ∧
     demoSimNeg.stats.length = demoSim.stats.length + 1) :=
  ⟨by decide, rfl, C6_amended demoSim (-2) demoSimNeg (by decide) rfl⟩

theorem getD_set_lt {α : Type _} [Inhabited α] :
    ∀ (l : List α) (i : Nat) (a : α), i < l.length →
      (l.set i a).getD i default = a
  | x :: xs, 0, a, _ => rfl
  | x :: xs, i + 1, a, h => by
    simp only [List.set_cons_succ, List.getD_cons_succ]
    exact getD_set_lt xs i a (by simpa using h)

theorem getD_set_ne {α : Type _} [Inhabited α] :
    ∀ (l : List α) (i j : Nat) (a : α), i ≠ j →
      (l.set i a).getD j default = l.getD j default
  | [], i, j, a, _ => by simp
  | x :: xs, 0, 0, a, h => absurd rfl h
  | x :: xs, 0, j + 1, a, _ => by simp
  | x :: xs, i + 1, 0, a, _ => by simp
  | x :: xs, i + 1, j + 1, a, h => by
    simp only [List.set_cons_succ, List.getD_cons_succ]
    exact getD_set_ne xs i j a (fun hc => h (by rw [hc]))

theorem updateUnit_getD_self (store : List TrackedUnit) (h : Nat)
    (f : TrackedUnit → TrackedUnit) (hlt : h < store.length) :
    (Node.updateUnit store h f).getD h default = f (store.getD h default) :=
  getD_set_lt store h _ hlt

theorem updateUnit_getD_ne (store : List TrackedUnit) (h u : Nat)
    (f : TrackedUnit → TrackedUnit) (hne : h ≠ u) :
    (Node.updateUnit store h f).getD u default = store.getD u default :=
  getD_set_ne store h u _ hne

theorem fulfill_components (t lag : Int) (hd : Bool) :
    ∀ (cq : List CQEntry) (inv : List Nat) (store : List TrackedUnit),
      (Node.fulfill_customer_queue t lag hd cq inv store).shipped
        = (cq.zip inv).map (fun p =>
            ((if hd then t + lag else t), p.2, t, p.1.requested_time)) ∧
      (Node.fulfill_customer_queue t lag hd cq inv store).customer_queue
        = cq.drop (min cq.length inv.length) ∧
      (Node.fulfill_customer_queue t lag hd cq inv store).inventory_units
        = inv.drop (min cq.length inv.length) ∧
      (Node.fulfill_customer_queue t lag hd cq inv store).ships
        = (if hd then (cq.zip inv).map (fun p =>
            ShipEntry.quad (t + lag) p.2 t p.1.requested_time) else []) := by
  intro cq
  induction cq with
  | nil =>
    intro inv store
    cases hd <;> simp [Node.fulfill_customer_queue]
  | cons c cq ih =>
    intro inv store
    cases inv with
    | nil => cases hd <;> simp [Node.fulfill_customer_queue]
    | cons h0 inv =>
      obtain ⟨ih1, ih2, ih3, ih4⟩ := ih inv store
      cases hd with
      | false =>
        obtain ⟨jh1, jh2, jh3, jh4⟩ := ih inv
          (Node.updateUnit store h0
            (fun u => { u with t_given_to_actual_customer := some t }))
        unfold Node.fulfill_customer_queue
        simp only [Bool.false_eq_true, if_neg, ite_false]
        refine ⟨?_, ?_, ?_, ?_⟩ <;>
          simp [jh1, jh2, jh3, jh4, Nat.succ_min_succ]
      | true =>
        unfold Node.fulfill_customer_queue
        simp only [if_pos rfl, ite_true]
        refine ⟨?_, ?_, ?_, ?_⟩ <;>
          simp [ih1, ih2, ih3, ih4, Nat.succ_min_succ]

theorem fulfill_marks_delivered (t lag : Int) :
    ∀ (cq : List CQEntry) (inv : List Nat) (store : List TrackedUnit),
      (∀ u ∈ inv, u < store.length) →
      (∀ p ∈ cq.zip inv,
        (((Node.fulfill_customer_queue t lag false cq inv store).store).getD
            p.2 default).t_given_to_actual_customer = some t)
      ∧ (∀ u, ((store.getD u default).t_given_to_actual_customer = some t) →
          (((Node.fulfill_customer_queue t lag false cq inv store).store).getD
              u default).t_given_to_actual_customer = some t) := by
  intro cq
  induction cq with
  | nil =>
    intro inv store _
    exact ⟨by simp, fun u h => by simpa [Node.fulfill_customer_queue] using h⟩
  | cons c cq ih =>
    intro inv store hin
    cases inv with
    | nil =>
      refine ⟨by simp [Node.fulfill_customer_queue], fun u h => ?_⟩
      simpa [Node.fulfill_customer_queue] using h
    | cons h0 inv =>
      have hlen : h0 < store.length := hin h0 (List.mem_cons_self h0 inv)
      have hlen' : ∀ u ∈ inv,
          u < (Node.updateUnit store h0
            (fun u => { u with t_given_to_actual_customer := some t })).length := by
        intro u hu
        rw [updateUnit_length]
        exact hin u (List.mem_cons_of_mem h0 hu)
      obtain ⟨ih1, ih2⟩ := ih inv
        (Node.updateUnit store h0
          (fun u => { u with t_given_to_actual_customer := some t })) hlen'
      have hset : ((Node.updateUnit store h0
          (fun u => { u with t_given_to_actual_customer := some t })).getD
            h0 default).t_given_to_actual_customer = some t := by
        rw [updateUnit_getD_self _ _ _ hlen]
      have hpres : ∀ u,
          ((store.getD u default).t_given_to_actual_customer = some t) →
          (((Node.updateUnit store h0
            (fun u => { u with t_given_to_actual_customer := some t })).getD
              u default).t_given_to_actual_customer = some t) := by
        intro u hu
        by_cases hc : h0 = u
        · subst hc; exact hset
        · rw [updateUnit_getD_ne _ _ _ _ hc]; exact hu
      constructor
      · intro p hp
        rw [List.zip_cons_cons, List.mem_cons] at hp
        cases hp with
        | inl hp =>
          subst hp
          unfold Node.fulfill_customer_queue
          simp only [Bool.false_eq_true, if_neg, ite_false]
          exact ih2 h0 hset
        | inr hp =>
          unfold Node.fulfill_customer_queue
          simp only [Bool.false_eq_true, if_neg, ite_false]
          exact ih1 p hp
      · intro u hu
        unfold Node.fulfill_customer_queue
        simp only [Bool.false_eq_true, if_neg, ite_false]
        exact ih2 u (hpres u hu)

/-- C5: `fulfill_customer_queue` fulfills exactly
`min (demand-queue length) (inventory count)` pairs, strictly in
demand-queue (FIFO) order, pairing the k-th queue entry with the k-th
inventory unit; the remaining demand entries are exactly the untouched
tail `drop k` (intact and in order), likewise the remaining inventory;
with a downstream node every fulfilled pair is scheduled to arrive
there at `t + lag_time`, and at the terminal node every fulfilled
inventory unit is stamped delivered at `t`. -/
theorem C5_fulfill_spec (t lag : Int) (hd : Bool) (cq : List CQEntry)
    (inv : List Nat) (store : List TrackedUnit)
    (hinv : ∀ u ∈ inv, u < store.length) :
    (Node.fulfill_customer_queue t lag hd cq inv store).shipped.length
      = min cq.length inv.length ∧
    (Node.fulfill_customer_queue t lag hd cq inv store).shipped
      = (cq.zip inv).map (fun p =>
          ((if hd then t + lag else t), p.2, t, p.1.requested_time)) ∧
    (Node.fulfill_customer_queue t lag hd cq inv store).customer_queue
      = cq.drop (min cq.length inv.length) ∧
    (Node.fulfill_customer_queue t lag hd cq inv store).inventory_units
      = inv.drop (min cq.length inv.length) ∧
    (Node.fulfill_customer_queue t lag hd cq inv store).ships
      = (if hd then (cq.zip inv).map (fun p =>
          ShipEntry.quad (t + lag) p.2 t p.1.requested_time) else []) ∧
    (hd = false → ∀ p ∈ cq.zip inv,
      (((Node.fulfill_customer_queue t lag hd cq inv store).store).getD
          p.2 default).t_given_to_actual_customer = some t) := by
  obtain ⟨h1, h2, h3, h4⟩ := fulfill_components t lag hd cq inv store
  refine ⟨?_, h1, h2, h3, h4, ?_⟩
  · rw [h1]; simp [List.length_zip]
  · intro hdf p hp
    subst hdf
    exact (fulfill_marks_delivered t lag cq inv store hinv).1 p hp

/-- Witness for C5 at a concrete terminal-node call: two demand entries,
one inventory unit — exactly one pair is fulfilled and stamped. -/
theorem C5_fulfill_spec_witness :
    (∀ u ∈ [3], u < ([default, default, default, default] :
        List TrackedUnit).length) ∧
    (Node.fulfill_customer_queue 5 2 false
        [⟨0, 1, 0, 0⟩, ⟨1, 1, 1, 1⟩] [3]
        [default, default, default, default]).shipped.length
      = min 2 1 ∧
    (Node.fulfill_customer_queue 5 2 false
        [⟨0, 1, 0, 0⟩, ⟨1, 1, 1, 1⟩] [3]
        [default, default, default, default]).customer_queue
      = [⟨1, 1, 1, 1⟩] :=
  ⟨by decide,
   (C5_fulfill_spec 5 2 false [⟨0, 1, 0, 0⟩, ⟨1, 1, 1, 1⟩] [3]
      [default, default, default, default] (by decide)).1,
   by
    have h := (C5_fulfill_spec 5 2 false [⟨0, 1, 0, 0⟩, ⟨1, 1, 1, 1⟩] [3]
      [default, default, default, default] (by decide)).2.2.1
    simpa using h⟩

/-! ### Receive-operation characterizations and reachability invariants -/

theorem receive_orders_aux_spec (t : Int) :
    ∀ q : List OrderEntry,
      Node.receive_orders_aux t q
        = ((q.takeWhile (fun e => e.arrival_time ≤ t)).map
            (fun e => (e.sent_time, e.unit)),
           q.dropWhile (fun e => e.arrival_time ≤ t)) := by
  intro q
  induction q with
  | nil => rfl
  | cons e q ih =>
    unfold Node.receive_orders_aux
    by_cases hdue : e.arrival_time ≤ t
    · rw [if_pos hdue, ih]
      simp [List.takeWhile_cons, List.dropWhile_cons, hdue]
    · rw [if_neg hdue]
      simp [List.takeWhile_cons, List.dropWhile_cons, hdue]

theorem receive_shipments_aux_ok_spec (t : Int) :
    ∀ (q : List ShipEntry) (pairs : List (Nat × Int)) (rest : List ShipEntry),
      Node.receive_shipments_aux t q = .ok (pairs, rest) →
      rest = q.dropWhile (fun e => e.arrival_time ≤ t) ∧
      pairs.map (·.1)
        = (q.takeWhile (fun e => e.arrival_time ≤ t)).map (·.unit) := by
  intro q
  induction q with
  | nil =>
    intro pairs rest h
    simp only [Node.receive_shipments_aux, Except.ok.injEq, Prod.mk.injEq] at h
    obtain ⟨h1, h2⟩ := h
    subst h1; subst h2
    simp
  | cons e q ih =>
    intro pairs rest h
    unfold Node.receive_shipments_aux at h
    by_cases hdue : e.arrival_time ≤ t
    · rw [if_pos hdue] at h
      cases e with
      | triple a u s => simp at h
      | quad a u s rq =>
        cases hrec : Node.receive_shipments_aux t q with
        | error er => rw [hrec] at h; simp [Bind.bind, Except.bind] at h
        | ok pr =>
          obtain ⟨rs, r⟩ := pr
          rw [hrec] at h
          simp only [Bind.bind, Except.bind, Except.ok.injEq, Prod.mk.injEq] at h
          obtain ⟨hp, hr⟩ := h
          subst hp; subst hr
          obtain ⟨hrest, hpairs⟩ := ih rs r hrec
          have hduea : (ShipEntry.quad a u s rq).arrival_time ≤ t := hdue
          constructor
          · rw [hrest]
            simp [List.dropWhile_cons, hduea]
          · simp only [List.map_cons]
            rw [hpairs]
            simp [List.takeWhile_cons, hduea, ShipEntry.unit]
    · rw [if_neg hdue] at h
      simp only [Except.ok.injEq, Prod.mk.injEq] at h
      obtain ⟨hp, hr⟩ := h
      subst hp; subst hr
      constructor
      · simp [List.dropWhile_cons, hdue]
      · simp [List.takeWhile_cons, hdue]

theorem receive_shipments_aux_ok_of_quad (t : Int) :
    ∀ q : List ShipEntry, (∀ e ∈ q, e.isQuad = true) →
      ∃ pr, Node.receive_shipments_aux t q = .ok pr := by
  intro q
  induction q with
  | nil => exact fun _ => ⟨([], []), rfl⟩
  | cons e q ih =>
    intro hq
    by_cases hdue : e.arrival_time ≤ t
    · cases e with
      | triple a u s =>
        have := hq (ShipEntry.triple a u s) (List.mem_cons_self _ _)
        simp [ShipEntry.isQuad] at this
      | quad a u s rq =>
        obtain ⟨pr, hpr⟩ := ih (fun e he => hq e (List.mem_cons_of_mem _ he))
        refine ⟨((u, rq) :: pr.1, pr.2), ?_⟩
        unfold Node.receive_shipments_aux
        rw [if_pos hdue, hpr]
        rfl
    · refine ⟨([], e :: q), ?_⟩
      unfold Node.receive_shipments_aux
      rw [if_neg hdue]

theorem foldl_inv {α β : Type _} (P : β → Prop) (f : β → α → β)
    (hf : ∀ b a, P b → P (f b a)) :
    ∀ (l : List α) (b : β), P b → P (l.foldl f b) := by
  intro l
  induction l with
  | nil => exact fun b hb => hb
  | cons a l ih => exact fun b hb => ih (f b a) (hf b a hb)

theorem foldlM_inv {α β ε : Type _} (P : β → Prop) (f : β → α → Except ε β)
    (hf : ∀ b a b', P b → f b a = .ok b' → P b') :
    ∀ (l : List α) (b b' : β), P b → l.foldlM f b = .ok b' → P b' := by
  intro l
  induction l with
  | nil =>
    intro b b' hb h
    simp only [List.foldlM_nil, pure, Except.pure, Except.ok.injEq] at h
    rw [← h]; exact hb
  | cons a l ih =>
    intro b b' hb h
    rw [List.foldlM_cons] at h
    cases hfa : f b a with
    | error e => rw [hfa] at h; simp [Bind.bind, Except.bind] at h
    | ok b1 =>
      rw [hfa] at h
      simp only [Bind.bind, Except.bind] at h
      exact ih b1 b' (hf b a b1 hb hfa) h

theorem getD_mem_or {α : Type _} [Inhabited α] (l : List α) (i : Nat) :
    l.getD i default ∈ l ∨ l.getD i default = default := by
  by_cases hi : i < l.length
  · left
    rw [List.getD_eq_getElem l default hi]
    exact List.getElem_mem hi
  · right
    exact List.getD_eq_default l default (le_of_not_lt hi)

theorem quadInv_updateStore (s : Sim) (h : Nat) (f : TrackedUnit → TrackedUnit) :
    (s.updateStore h f).quadInv = s.quadInv := rfl

theorem quadInv_updateMetrics (s : Sim) (h : Nat) (f : MetricsRow → MetricsRow) :
    (s.updateMetrics h f).quadInv = s.quadInv := rfl

theorem quadInv_node_ships (s : Sim) (h : s.quadInv) (i : Nat) :
    ∀ e ∈ (s.nodes.getD i default).incoming_shipments, e.isQuad = true := by
  intro e he
  rcases getD_mem_or s.nodes i with hm | hd
  · exact h _ hm e he
  · rw [hd] at he
    exact absurd he (List.not_mem_nil e)

theorem quadInv_updateNode (s : Sim) (i : Nat) (f : Node → Node)
    (h : s.quadInv)
    (hf : ∀ e ∈ (f (s.nodes.getD i default)).incoming_shipments,
      e.isQuad = true) :
    (s.updateNode i f).quadInv := by
  intro nd hnd e he
  rcases List.mem_or_eq_of_mem_set hnd with hmem | heq
  · exact h nd hmem e he
  · subst heq; exact hf e he

theorem quadInv_updateNode_keep (s : Sim) (i : Nat) (f : Node → Node)
    (h : s.quadInv)
    (hf : ∀ nd, (f nd).incoming_shipments = nd.incoming_shipments) :
    (s.updateNode i f).quadInv := by
  refine quadInv_updateNode s i f h ?_
  rw [hf]
  exact quadInv_node_ships s h i

theorem proc_ships_quad (t lag mt : Int) (batches : List Batch)
    (cq : List CQEntry) (store : List TrackedUnit) :
    ∀ e ∈ (Node.process_manufacturing t lag mt batches cq store).ships,
      e.isQuad = true := by
  intro e he
  simp only [Node.process_manufacturing, List.mem_flatMap, List.mem_map] at he
  obtain ⟨b, _, p, _, rfl⟩ := he
  rfl

theorem fulfill_ships_quad (t lag : Int) (hd : Bool) (cq : List CQEntry)
    (inv : List Nat) (store : List TrackedUnit) :
    ∀ e ∈ (Node.fulfill_customer_queue t lag hd cq inv store).ships,
      e.isQuad = true := by
  intro e he
  rw [(fulfill_components t lag hd cq inv store).2.2.2] at he
  cases hd with
  | false => simp at he
  | true =>
    simp only [if_pos rfl, List.mem_map, ite_true] at he
    obtain ⟨p, _, rfl⟩ := he
    rfl

theorem stepPhase0_quad (s : Sim) (t d : Int) (h : s.quadInv) :
    (Sim.stepPhase0 s t d).quadInv := by
  unfold Sim.stepPhase0
  dsimp only
  refine foldl_inv Sim.quadInv _ ?_ _ _ h
  intro b i hb
  dsimp only
  split
  · rw [quadInv_updateStore]
    refine quadInv_updateNode_keep _ _ _ ?_ (fun nd => rfl)
    refine quadInv_updateNode_keep _ _ _ ?_ (fun nd => rfl)
    exact hb
  · refine quadInv_updateNode_keep _ _ _ ?_ (fun nd => rfl)
    exact hb

theorem stepPhase1_quad (s : Sim) (t : Int) (s' : Sim)
    (h1 : Sim.stepPhase1 s t = .ok s') (h : s.quadInv) : s'.quadInv := by
  unfold Sim.stepPhase1 at h1
  refine foldlM_inv Sim.quadInv _ ?_ _ s s' h h1
  intro b a b' hb hstep
  dsimp only at hstep
  cases haux : Node.receive_shipments_aux t
      (b.nodes.getD a default).incoming_shipments with
  | error e => rw [haux] at hstep; simp [Bind.bind, Except.bind] at hstep
  | ok pr =>
    obtain ⟨received, rest⟩ := pr
    rw [haux] at hstep
    simp only [Bind.bind, Except.bind, Except.ok.injEq] at hstep
    subst hstep
    refine foldl_inv Sim.quadInv _ ?_ _ _ ?_
    · intro b2 p hb2
      rw [quadInv_updateMetrics]
      exact hb2
    refine quadInv_updateNode _ _ _ hb ?_
    intro e he
    obtain ⟨hrest, _⟩ :=
      receive_shipments_aux_ok_spec t _ received rest haux
    rw [hrest] at he
    exact quadInv_node_ships b hb a e
      ((List.dropWhile_sublist _).subset he)

theorem stepPhase2_quad (s : Sim) (t : Int) (h : s.quadInv) :
    (Sim.stepPhase2 s t).quadInv := by
  unfold Sim.stepPhase2
  refine foldl_inv Sim.quadInv _ ?_ _ s h
  intro b i hb
  dsimp only
  refine foldl_inv Sim.quadInv _ ?_ _ _ ?_
  · intro b2 p hb2
    obtain ⟨sent, hh⟩ := p
    dsimp only
    split
    · rw [quadInv_updateStore]
      refine quadInv_updateNode_keep _ _ _ ?_ (fun nd => rfl)
      rw [quadInv_updateMetrics]
      refine quadInv_updateNode_keep _ _ _ ?_ (fun nd => rfl)
      exact hb2
    · rw [quadInv_updateMetrics]
      refine quadInv_updateNode_keep _ _ _ ?_ (fun nd => rfl)
      exact hb2
  · refine quadInv_updateNode_keep _ _ _ ?_ (fun nd => rfl)
    exact hb

theorem stepPhase3_quad (s : Sim) (t : Int) (h : s.quadInv) :
    (Sim.stepPhase3 s t).quadInv := by
  unfold Sim.stepPhase3
  refine foldl_inv Sim.quadInv _ ?_ _ s h
  intro b i hb
  unfold Sim.phase3_body
  dsimp only
  split
  · refine foldl_inv Sim.quadInv _ ?_ _ _ ?_
    · intro b2 p hb2
      rw [quadInv_updateMetrics]
      exact hb2
    refine quadInv_updateNode _ _ _ ?inner ?hf
    case inner =>
      refine quadInv_updateNode_keep _ _ _ ?_ (fun nd => rfl)
      exact hb
    case hf =>
      intro e he
      rcases List.mem_append.mp he with ho | hn
      · refine quadInv_node_ships _ ?_ _ e ho
        refine quadInv_updateNode_keep _ _ _ ?_ (fun nd => rfl)
        exact hb
      · exact proc_ships_quad _ _ _ _ _ _ e hn
  · by_cases hi : i = 0
    · subst hi
      rw [if_pos rfl, if_neg (fun hcon => hcon rfl)]
      refine foldl_inv Sim.quadInv _ ?_ _ _ ?_
      · intro b2 p hb2
        rw [quadInv_updateMetrics]
        exact hb2
      refine quadInv_updateNode_keep _ _ _ ?_ (fun nd => rfl)
      exact hb
    · rw [if_neg hi, if_pos hi]
      refine quadInv_updateNode _ _ _ ?innerF ?hfF
      case innerF =>
        refine quadInv_updateNode_keep _ _ _ ?_ (fun nd => rfl)
        exact hb
      case hfF =>
        intro e he
        rcases List.mem_append.mp he with ho | hn
        · refine quadInv_node_ships _ ?_ _ e ho
          refine quadInv_updateNode_keep _ _ _ ?_ (fun nd => rfl)
          exact hb
        · exact fulfill_ships_quad _ _ _ _ _ _ e hn

theorem step_quad (s : Sim) (d : Int) (s' : Sim)
    (h : Sim.step s d = .ok s') (hq : s.quadInv) : s'.quadInv := by
  simp only [Sim.step] at h
  cases hp : Sim.stepPhase1 (Sim.stepPhase0 s s.time d) s.time with
  | error e => rw [hp] at h; simp [Bind.bind, Except.bind] at h
  | ok s1 =>
    rw [hp] at h
    simp only [Bind.bind, Except.bind, Except.ok.injEq] at h
    subst h
    exact stepPhase3_quad _ _ (stepPhase2_quad _ _
      (stepPhase1_quad _ _ _ hp (stepPhase0_quad s s.time d hq)))

theorem seed_preserves_ships (invs : List Int) (l : List Nat)
    (acc : List Node × List TrackedUnit × List MetricsRow)
    (hacc : ∀ nd ∈ acc.1, nd.incoming_shipments = []) :
    ∀ nd ∈ (l.foldl (Sim.seed_body invs) acc).1, nd.incoming_shipments = [] := by
  refine foldl_inv
    (fun acc2 : List Node × List TrackedUnit × List MetricsRow =>
      ∀ nd ∈ acc2.1, nd.incoming_shipments = []) _ ?_ l acc hacc
  intro b i hb nd hnd
  rcases List.mem_or_eq_of_mem_set hnd with hm | heq
  · exact hb nd hm
  · subst heq
    rcases getD_mem_or b.1 i with hm2 | hd2
    · exact hb (b.1.getD i default) hm2
    · have hde : (b.1.getD i default).incoming_shipments = [] := by
        rw [hd2]; rfl
      exact hde

theorem init_quad (n : Nat) (invs cls lts : List Int) (mt mft md : Int)
    (sd : Option Int) (s : Sim)
    (h : Sim.init n invs cls lts mt mft md sd = .ok s) : s.quadInv := by
  unfold Sim.init at h
  split at h
  · simp only [Except.ok.injEq] at h
    subst h
    intro nd hnd e he
    have hships : nd.incoming_shipments = [] := by
      refine seed_preserves_ships invs (List.range n) _ ?_ nd hnd
      intro nd2 hnd2
      obtain ⟨j, hj, rfl⟩ := List.mem_map.mp hnd2
      rfl
    rw [hships] at he
    exact absurd he (List.not_mem_nil e)
  · exact absurd h (by simp)

theorem reset_quad (s : Sim) : (Sim.reset s).quadInv := by
  intro nd hnd e he
  unfold Sim.reset at hnd
  simp only [List.mem_map] at hnd
  obtain ⟨i, _, rfl⟩ := hnd
  split at he <;> exact absurd he (List.not_mem_nil e)

theorem reachable_quadInv (s : Sim) (h : Reachable s) : s.quadInv := by
  induction h with
  | init n invs cls lts mt mft md sd s hs =>
    exact init_quad n invs cls lts mt mft md sd s hs
  | step s d s' hr hstep ih => exact step_quad s d s' hstep ih
  | reset s hr ih => exact reset_quad s

/-- C10: in every state reachable through the engine's public operations
(construction, stepping, reset), every entry of every node's
inbound-shipment queue is a 4-tuple, so `receive_shipments` never takes
its raising branch: it returns successfully at every tick. -/
theorem C10_ships_always_quads (s : Sim) (h : Reachable s) :
    (∀ nd ∈ s.nodes, ∀ e ∈ nd.incoming_shipments, e.isQuad = true) ∧
    (∀ nd ∈ s.nodes, ∀ t : Int,
      ∃ pr, Node.receive_shipments_aux t nd.incoming_shipments = .ok pr) := by
  have hq := reachable_quadInv s h
  exact ⟨hq, fun nd hnd t =>
    receive_shipments_aux_ok_of_quad t _ (hq nd hnd)⟩

/-- Witness: the reachable two-node state after one step has only
4-tuple shipment entries and an always-succeeding receive. -/
theorem C10_ships_always_quads_witness :
    Reachable demoSimStep ∧
    ((∀ nd ∈ demoSimStep.nodes, ∀ e ∈ nd.incoming_shipments,
        e.isQuad = true) ∧
     (∀ nd ∈ demoSimStep.nodes, ∀ t : Int,
        ∃ pr, Node.receive_shipments_aux t nd.incoming_shipments = .ok pr)) :=
  ⟨Reachable.step demoSim 1 demoSimStep
      (Reachable.init 2 [1, 0] [1, 1] [1, 1] 100 3 50 none demoSim rfl) rfl,
   C10_ships_always_quads demoSimStep
     (Reachable.step demoSim 1 demoSimStep
       (Reachable.init 2 [1, 0] [1, 1] [1, 1] 100 3 50 none demoSim rfl) rfl)⟩

/-! ### Lag/sortedness invariant machinery -/

theorem getD_set_cases {α : Type _} [Inhabited α] (l : List α) (i j : Nat)
    (a : α) :
    (l.set i a).getD j default
      = if j = i ∧ i < l.length then a else l.getD j default := by
  by_cases hij : j = i
  · subst hij
    by_cases hlt : j < l.length
    · rw [if_pos ⟨rfl, hlt⟩]; exact getD_set_lt l j a hlt
    · rw [if_neg (fun hc => hlt hc.2),
        List.set_eq_of_length_le (le_of_not_lt hlt)]
  · rw [if_neg (fun hc => hij hc.1)]
    exact getD_set_ne l i j a (fun hc => hij hc.symm)

theorem queuesOK_orders_at (tb bb : Int) (nodes : List Node)
    (h : QueuesOK tb bb nodes) (i : Nat) :
    (∀ e ∈ (nodes.getD i default).incoming_orders,
        e.arrival_time ≤ (tb - 1) + (nodes.getD (i - 1) default).order_comm_lag)
      ∧ List.Pairwise orderLE (nodes.getD i default).incoming_orders := by
  by_cases hi : i < nodes.length
  · exact ⟨h.orders_bnd i hi, h.orders_sorted i hi⟩
  · rw [List.getD_eq_default _ _ (le_of_not_lt hi)]
    exact ⟨by intro e he; exact absurd he (List.not_mem_nil e), List.Pairwise.nil⟩

theorem queuesOK_ships_at (tb bb : Int) (nodes : List Node)
    (h : QueuesOK tb bb nodes) (i : Nat) :
    (∀ e ∈ (nodes.getD i default).incoming_shipments,
        e.arrival_time
          ≤ (tb - 1) + (nodes.getD ((i + 1) % nodes.length) default).lag_time)
      ∧ List.Pairwise shipLE (nodes.getD i default).incoming_shipments := by
  by_cases hi : i < nodes.length
  · exact ⟨h.ships_bnd i hi, h.ships_sorted i hi⟩
  · rw [List.getD_eq_default _ _ (le_of_not_lt hi)]
    exact ⟨by intro e he; exact absurd he (List.not_mem_nil e), List.Pairwise.nil⟩

theorem queuesOK_set (tb bb : Int) (nodes : List Node) (i : Nat) (fval : Node)
    (h : QueuesOK tb bb nodes)
    (hflag : fval.is_manufacturer = (nodes.getD i default).is_manufacturer)
    (hmt : fval.manufacturing_time = (nodes.getD i default).manufacturing_time)
    (hocl : fval.order_comm_lag = (nodes.getD i default).order_comm_lag)
    (hlt : fval.lag_time = (nodes.getD i default).lag_time)
    (hord : (∀ e ∈ fval.incoming_orders,
        e.arrival_time ≤ (tb - 1) + (nodes.getD (i - 1) default).order_comm_lag)
      ∧ List.Pairwise orderLE fval.incoming_orders)
    (hship : (∀ e ∈ fval.incoming_shipments,
        e.arrival_time
          ≤ (tb - 1) + (nodes.getD ((i + 1) % nodes.length) default).lag_time)
      ∧ List.Pairwise shipLE fval.incoming_shipments)
    (hbat : ∀ b ∈ fval.active_batches, bb ≤ b.end_time)
    (hbe : fval.is_manufacturer = false → fval.active_batches = []) :
    QueuesOK tb bb (nodes.set i fval) := by
  have hlen : (nodes.set i fval).length = nodes.length := List.length_set ..
  have hgetD : ∀ j, (nodes.set i fval).getD j default
      = if j = i ∧ i < nodes.length then fval else nodes.getD j default :=
    fun j => getD_set_cases nodes i j fval
  have hO : ∀ j, ((nodes.set i fval).getD j default).order_comm_lag
      = (nodes.getD j default).order_comm_lag := by
    intro j
    rw [hgetD j]
    split
    · next hc => rw [hocl, hc.1]
    · rfl
  have hL : ∀ j, ((nodes.set i fval).getD j default).lag_time
      = (nodes.getD j default).lag_time := by
    intro j
    rw [hgetD j]
    split
    · next hc => rw [hlt, hc.1]
    · rfl
  refine ⟨?_, ?_, ?_, ?_, ?_, ?_, ?_, ?_⟩
  · intro j hj
    rw [hlen] at hj ⊢
    rw [hgetD j]
    split
    · next hc => rw [hflag, hc.1]; exact h.manu_iff i hc.2
    · exact h.manu_iff j hj
  · intro j hj
    rw [hlen] at hj
    rw [hgetD j]
    split
    · next hc =>
      rw [hflag, hmt]
      exact h.manu_mt i hc.2
    · exact h.manu_mt j hj
  · intro j hj
    rw [hlen] at hj
    rw [hgetD j]
    split
    · next hc => rw [hflag]; intro hf; exact hbe (hflag.trans hf)
    · exact h.batches_empty j hj
  · intro j hj
    rw [hlen] at hj
    rw [hgetD j]
    split
    · exact hbat
    · exact h.batches_future j hj
  · intro j hj
    rw [hlen] at hj
    rw [hgetD j, hO (j - 1)]
    split
    · next hc => rw [hc.1]; exact hord.1
    · exact h.orders_bnd j hj
  · intro j hj
    rw [hlen] at hj
    rw [hgetD j]
    split
    · exact hord.2
    · exact h.orders_sorted j hj
  · intro j hj
    rw [hlen] at hj
    rw [hgetD j, hlen, hL ((j + 1) % nodes.length)]
    split
    · next hc => rw [hc.1]; exact hship.1
    · exact h.ships_bnd j hj
  · intro j hj
    rw [hlen] at hj
    rw [hgetD j]
    split
    · exact hship.2
    · exact h.ships_sorted j hj

theorem updateNode_nodes (s : Sim) (i : Nat) (f : Node → Node) :
    (s.updateNode i f).nodes = s.nodes.set i (f (s.nodes.getD i default)) := rfl

theorem updateStore_nodes (s : Sim) (h : Nat) (f : TrackedUnit → TrackedUnit) :
    (s.updateStore h f).nodes = s.nodes := rfl

theorem updateMetrics_nodes (s : Sim) (h : Nat) (f : MetricsRow → MetricsRow) :
    (s.updateMetrics h f).nodes = s.nodes := rfl

theorem queuesOK_batches_at (tb bb : Int) (nodes : List Node)
    (h : QueuesOK tb bb nodes) (i : Nat) :
    (∀ b ∈ (nodes.getD i default).active_batches, bb ≤ b.end_time) ∧
    ((nodes.getD i default).is_manufacturer = false →
      (nodes.getD i default).active_batches = []) ∧
    ((nodes.getD i default).is_manufacturer = true →
      1 ≤ (nodes.getD i default).manufacturing_time.getD 0) := by
  by_cases hi : i < nodes.length
  · exact ⟨h.batches_future i hi, h.batches_empty i hi, h.manu_mt i hi⟩
  · rw [List.getD_eq_default _ _ (le_of_not_lt hi)]
    refine ⟨?_, fun _ => rfl, ?_⟩
    · intro b hb; exact absurd hb (List.not_mem_nil b)
    · intro hf; exact absurd hf (by decide)

theorem queuesOK_keep (tb bb : Int) (nodes : List Node) (i : Nat)
    (f : Node → Node) (h : QueuesOK tb bb nodes)
    (hkeep : ∀ nd, (f nd).is_manufacturer = nd.is_manufacturer ∧
      (f nd).manufacturing_time = nd.manufacturing_time ∧
      (f nd).order_comm_lag = nd.order_comm_lag ∧
      (f nd).lag_time = nd.lag_time ∧
      (f nd).incoming_orders = nd.incoming_orders ∧
      (f nd).incoming_shipments = nd.incoming_shipments ∧
      (f nd).active_batches = nd.active_batches) :
    QueuesOK tb bb (nodes.set i (f (nodes.getD i default))) := by
  obtain ⟨h1, h2, h3, h4, h5, h6, h7⟩ := hkeep (nodes.getD i default)
  refine queuesOK_set tb bb nodes i _ h h1 h2 h3 h4 ?_ ?_ ?_ ?_
  · rw [h5]; exact queuesOK_orders_at tb bb nodes h i
  · rw [h6]; exact queuesOK_ships_at tb bb nodes h i
  · rw [h7]; exact (queuesOK_batches_at tb bb nodes h i).1
  · rw [h7, h1]; exact (queuesOK_batches_at tb bb nodes h i).2.1

theorem orders_append_ok (bound : Int) (old new : List OrderEntry)
    (hold : ∀ e ∈ old, e.arrival_time ≤ bound)
    (holds : List.Pairwise orderLE old)
    (hnew : ∀ e ∈ new, e.arrival_time = bound) :
    (∀ e ∈ old ++ new, e.arrival_time ≤ bound) ∧
    List.Pairwise orderLE (old ++ new) := by
  constructor
  · intro e he
    rcases List.mem_append.mp he with h1 | h2
    · exact hold e h1
    · exact (hnew e h2).le
  · rw [List.pairwise_append]
    refine ⟨holds, ?_, ?_⟩
    · refine List.pairwise_of_forall_mem_list ?_
      intro a ha b hb
      exact le_of_le_of_eq (hnew a ha).le (hnew b hb).symm
    · intro a ha b hb
      exact le_trans (hold a ha) (hnew b hb).symm.le

theorem ships_append_ok (bound : Int) (old new : List ShipEntry)
    (hold : ∀ e ∈ old, e.arrival_time ≤ bound)
    (holds : List.Pairwise shipLE old)
    (hnew : ∀ e ∈ new, e.arrival_time = bound) :
    (∀ e ∈ old ++ new, e.arrival_time ≤ bound) ∧
    List.Pairwise shipLE (old ++ new) := by
  constructor
  · intro e he
    rcases List.mem_append.mp he with h1 | h2
    · exact hold e h1
    · exact (hnew e h2).le
  · rw [List.pairwise_append]
    refine ⟨holds, ?_, ?_⟩
    · refine List.pairwise_of_forall_mem_list ?_
      intro a ha b hb
      exact le_of_le_of_eq (hnew a ha).le (hnew b hb).symm
    · intro a ha b hb
      exact le_trans (hold a ha) (hnew b hb).symm.le

theorem queuesOK_set_cq (tb bb : Int) (nodes : List Node) (i : Nat)
    (cqv : List CQEntry) (invv : List Nat) (h : QueuesOK tb bb nodes) :
    QueuesOK tb bb (nodes.set i
      { (nodes.getD i default) with customer_queue := cqv,
                                    inventory_units := invv }) := by
  refine queuesOK_set tb bb nodes i _ h rfl rfl rfl rfl ?_ ?_ ?_ ?_
  · exact queuesOK_orders_at tb bb nodes h i
  · exact queuesOK_ships_at tb bb nodes h i
  · exact (queuesOK_batches_at tb bb nodes h i).1
  · exact (queuesOK_batches_at tb bb nodes h i).2.1

theorem queuesOK_append_order_entry (tb bb : Int) (nodes : List Node) (r : Nat)
    (entry : OrderEntry) (h : QueuesOK tb bb nodes)
    (harr : entry.arrival_time
      = (tb - 1) + (nodes.getD (r - 1) default).order_comm_lag) :
    QueuesOK tb bb (nodes.set r
      { nodes.getD r default with
        incoming_orders := (nodes.getD r default).incoming_orders ++ [entry] }) := by
  refine queuesOK_set tb bb nodes r _ h rfl rfl rfl rfl ?_ ?_ ?_ ?_
  · refine orders_append_ok _ _ _ (queuesOK_orders_at tb bb nodes h r).1
      (queuesOK_orders_at tb bb nodes h r).2 ?_
    intro e he
    rw [List.mem_singleton] at he
    subst he
    exact harr
  · exact queuesOK_ships_at tb bb nodes h r
  · exact (queuesOK_batches_at tb bb nodes h r).1
  · exact (queuesOK_batches_at tb bb nodes h r).2.1

theorem queuesOK_set_orders_drop (tb bb : Int) (nodes : List Node) (i : Nat)
    (rest : List OrderEntry) (cqv : List CQEntry) (h : QueuesOK tb bb nodes)
    (hsub : rest.Sublist (nodes.getD i default).incoming_orders) :
    QueuesOK tb bb (nodes.set i
      { (nodes.getD i default) with incoming_orders := rest,
                                    customer_queue := cqv }) := by
  refine queuesOK_set tb bb nodes i _ h rfl rfl rfl rfl ?_ ?_ ?_ ?_
  · constructor
    · intro e he
      exact (queuesOK_orders_at tb bb nodes h i).1 e (hsub.subset he)
    · exact (queuesOK_orders_at tb bb nodes h i).2.sublist hsub
  · exact queuesOK_ships_at tb bb nodes h i
  · exact (queuesOK_batches_at tb bb nodes h i).1
  · exact (queuesOK_batches_at tb bb nodes h i).2.1

theorem queuesOK_set_ships_drop (tb bb : Int) (nodes : List Node) (i : Nat)
    (rest : List ShipEntry) (invv : List Nat) (h : QueuesOK tb bb nodes)
    (hsub : rest.Sublist (nodes.getD i default).incoming_shipments) :
    QueuesOK tb bb (nodes.set i
      { (nodes.getD i default) with incoming_shipments := rest,
                                    inventory_units := invv }) := by
  refine queuesOK_set tb bb nodes i _ h rfl rfl rfl rfl ?_ ?_ ?_ ?_
  · exact queuesOK_orders_at tb bb nodes h i
  · constructor
    · intro e he
      exact (queuesOK_ships_at tb bb nodes h i).1 e (hsub.subset he)
    · exact (queuesOK_ships_at tb bb nodes h i).2.sublist hsub
  · exact (queuesOK_batches_at tb bb nodes h i).1
  · exact (queuesOK_batches_at tb bb nodes h i).2.1

theorem queuesOK_set_ships_append (tb bb : Int) (nodes : List Node) (r : Nat)
    (news : List ShipEntry) (h : QueuesOK tb bb nodes)
    (harr : ∀ e ∈ news, e.arrival_time
      = (tb - 1) + (nodes.getD ((r + 1) % nodes.length) default).lag_time) :
    QueuesOK tb bb (nodes.set r
      { nodes.getD r default with
        incoming_shipments :=
          (nodes.getD r default).incoming_shipments ++ news }) := by
  refine queuesOK_set tb bb nodes r _ h rfl rfl rfl rfl ?_ ?_ ?_ ?_
  · exact queuesOK_orders_at tb bb nodes h r
  · exact ships_append_ok _ _ _ (queuesOK_ships_at tb bb nodes h r).1
      (queuesOK_ships_at tb bb nodes h r).2 harr
  · exact (queuesOK_batches_at tb bb nodes h r).1
  · exact (queuesOK_batches_at tb bb nodes h r).2.1

theorem queuesOK_set_batches (tb t : Int) (nodes : List Node) (i : Nat)
    (newb : List Batch) (cqv : List CQEntry) (h : QueuesOK tb t nodes)
    (himan : (nodes.getD i default).is_manufacturer = true)
    (hiuniq : ∀ j, j < nodes.length → j ≠ i →
      (nodes.getD j default).is_manufacturer = false)
    (hnewb : ∀ b ∈ newb, t + 1 ≤ b.end_time) :
    QueuesOK tb (t + 1) (nodes.set i
      { (nodes.getD i default) with active_batches := newb,
                                    customer_queue := cqv }) := by
  have hlen : (nodes.set i
      { (nodes.getD i default) with active_batches := newb,
                                    customer_queue := cqv }).length = nodes.length := List.length_set ..
  have hgetD : ∀ j, (nodes.set i
      { (nodes.getD i default) with active_batches := newb,
                                    customer_queue := cqv }).getD j default
      = if j = i ∧ i < nodes.length then
          { (nodes.getD i default) with active_batches := newb,
                                        customer_queue := cqv }
        else nodes.getD j default :=
    fun j => getD_set_cases nodes i j _
  have hO : ∀ j, ((nodes.set i
      { (nodes.getD i default) with active_batches := newb,
                                    customer_queue := cqv }).getD j default).order_comm_lag
      = (nodes.getD j default).order_comm_lag := by
    intro j
    rw [hgetD j]
    split
    · next hc => rw [hc.1]
    · rfl
  have hL : ∀ j, ((nodes.set i
      { (nodes.getD i default) with active_batches := newb,
                                    customer_queue := cqv }).getD j default).lag_time
      = (nodes.getD j default).lag_time := by
    intro j
    rw [hgetD j]
    split
    · next hc => rw [hc.1]
    · rfl
  refine ⟨?_, ?_, ?_, ?_, ?_, ?_, ?_, ?_⟩
  · intro j hj
    rw [hlen] at hj ⊢
    rw [hgetD j]
    split
    · next hc =>
      have : ({ (nodes.getD i default) with active_batches := newb,
                                            customer_queue := cqv } : Node).is_manufacturer
          = (nodes.getD i default).is_manufacturer := rfl
      rw [this, hc.1]
      exact h.manu_iff i hc.2
    · exact h.manu_iff j hj
  · intro j hj
    rw [hlen] at hj
    rw [hgetD j]
    split
    · next hc => exact h.manu_mt i hc.2
    · exact h.manu_mt j hj
  · intro j hj
    rw [hlen] at hj
    rw [hgetD j]
    split
    · next hc =>
      intro hf
      have hff : (nodes.getD i default).is_manufacturer = false := hf
      rw [himan] at hff
      exact Bool.noConfusion hff
    · exact h.batches_empty j hj
  · intro j hj
    rw [hlen] at hj
    rw [hgetD j]
    split
    · exact hnewb
    · next hcond =>
      by_cases hji : j = i
      · exact absurd ⟨hji, hji ▸ hj⟩ hcond
      · have hflag := hiuniq j hj hji
        rw [h.batches_empty j hj hflag]
        intro b hb
        exact absurd hb (List.not_mem_nil b)
  · intro j hj
    rw [hlen] at hj
    rw [hgetD j, hO (j - 1)]
    split
    · next hc => rw [hc.1]; exact h.orders_bnd i hc.2
    · exact h.orders_bnd j hj
  · intro j hj
    rw [hlen] at hj
    rw [hgetD j]
    split
    · next hc => exact h.orders_sorted i hc.2
    · exact h.orders_sorted j hj
  · intro j hj
    rw [hlen] at hj
    rw [hgetD j, hlen, hL ((j + 1) % nodes.length)]
    split
    · next hc => rw [hc.1]; exact h.ships_bnd i hc.2
    · exact h.ships_bnd j hj
  · intro j hj
    rw [hlen] at hj
    rw [hgetD j]
    split
    · next hc => exact h.ships_sorted i hc.2
    · exact h.ships_sorted j hj

theorem foldl_inv_mem {α β : Type _} (P : β → Prop) (f : β → α → β) :
    ∀ (l : List α), (∀ b a, a ∈ l → P b → P (f b a)) →
      ∀ b, P b → P (l.foldl f b) := by
  intro l
  induction l with
  | nil => exact fun _ b hb => hb
  | cons a l ih =>
    intro hf b hb
    rw [List.foldl_cons]
    exact ih (fun b2 a2 ha2 hb2 => hf b2 a2 (List.mem_cons_of_mem a ha2) hb2)
      _ (hf b a (List.mem_cons_self a l) hb)

theorem range_reverse_succ (n : Nat) :
    (List.range (n + 1)).reverse = n :: (List.range n).reverse := by
  rw [List.range_succ]
  simp

theorem drain_aux_end (t mt : Int) :
    ∀ (l : List CQEntry) (cur : Int) (cu : List Nat) (cr : List Int),
      ∀ b ∈ Node.drain_aux t mt cur cu cr l, b.end_time = t + mt := by
  intro l
  induction l with
  | nil =>
    intro cur cu cr b hb
    rw [Node.drain_aux, List.mem_singleton] at hb
    subst hb
    rfl
  | cons c l ih =>
    intro cur cu cr b hb
    unfold Node.drain_aux at hb
    split at hb
    · exact ih _ _ _ b hb
    · rw [List.mem_cons] at hb
      rcases hb with hb | hb
      · subst hb; rfl
      · exact ih _ _ _ b hb

theorem drain_batches_end (t mt : Int) :
    ∀ (cq : List CQEntry), ∀ b ∈ Node.drain_batches t mt cq,
      b.end_time = t + mt := by
  intro cq b hb
  cases cq with
  | nil => exact absurd hb (List.not_mem_nil b)
  | cons c rest => exact drain_aux_end t mt rest _ _ _ b hb

theorem proc_batches_bound (t lag mt : Int) (batches : List Batch)
    (cq : List CQEntry) (store : List TrackedUnit) (hmt : 1 ≤ mt)
    (hold : ∀ b ∈ batches, t ≤ b.end_time) :
    ∀ b ∈ (Node.process_manufacturing t lag mt batches cq store).active_batches,
      t + 1 ≤ b.end_time := by
  intro b hb
  unfold Node.process_manufacturing at hb
  dsimp only at hb
  rcases List.mem_append.mp hb with h1 | h2
  · have hp := List.of_mem_filter h1
    simp only [decide_eq_true_eq, ge_iff_le, not_le] at hp
    omega
  · rw [drain_batches_end t mt cq b h2]
    omega

theorem proc_ships_arrival (t lag mt : Int) (batches : List Batch)
    (cq : List CQEntry) (store : List TrackedUnit)
    (hold : ∀ b ∈ batches, t ≤ b.end_time) :
    ∀ e ∈ (Node.process_manufacturing t lag mt batches cq store).ships,
      e.arrival_time = t + lag := by
  intro e he
  simp only [Node.process_manufacturing, List.mem_flatMap, List.mem_map] at he
  obtain ⟨b, hb, p, hp, rfl⟩ := he
  have h1 := List.of_mem_filter hb
  have h2 := hold b (List.mem_of_mem_filter hb)
  simp only [decide_eq_true_eq, ge_iff_le] at h1
  show b.end_time + lag = t + lag
  omega

theorem fulfill_ships_arrival (t lag : Int) (cq : List CQEntry)
    (inv : List Nat) (store : List TrackedUnit) :
    ∀ e ∈ (Node.fulfill_customer_queue t lag true cq inv store).ships,
      e.arrival_time = t + lag := by
  intro e he
  rw [(fulfill_components t lag true cq inv store).2.2.2] at he
  simp only [ite_true, List.mem_map] at he
  obtain ⟨p, _, rfl⟩ := he
  rfl

theorem stepPhase0_queues (s : Sim) (t d bb : Int)
    (h : QueuesOK (t + 1) bb s.nodes) :
    QueuesOK (t + 1) bb (Sim.stepPhase0 s t d).nodes := by
  unfold Sim.stepPhase0
  dsimp only
  refine foldl_inv (fun b : Sim => QueuesOK (t + 1) bb b.nodes) _ ?_ _ _ h
  intro b i hb
  dsimp only
  split
  · rw [updateStore_nodes, updateNode_nodes, updateNode_nodes]
    refine queuesOK_append_order_entry _ _ _ _ _ ?_ ?_
    · exact queuesOK_set_cq _ _ _ _ _ _ hb
    · show _ = ((t + 1) - 1) + _
      rw [Int.add_sub_cancel]
  · rw [updateNode_nodes]
    exact queuesOK_set_cq _ _ _ _ _ _ hb

theorem stepPhase1_queues (s : Sim) (t bb : Int) (s' : Sim)
    (h1 : Sim.stepPhase1 s t = .ok s')
    (h : QueuesOK (t + 1) bb s.nodes) : QueuesOK (t + 1) bb s'.nodes := by
  unfold Sim.stepPhase1 at h1
  refine foldlM_inv (fun b : Sim => QueuesOK (t + 1) bb b.nodes) _ ?_ _ s s' h h1
  intro b a b' hb hstep
  dsimp only at hstep
  cases haux : Node.receive_shipments_aux t
      (b.nodes.getD a default).incoming_shipments with
  | error e => rw [haux] at hstep; simp [Bind.bind, Except.bind] at hstep
  | ok pr =>
    obtain ⟨received, rest⟩ := pr
    rw [haux] at hstep
    simp only [Bind.bind, Except.bind, Except.ok.injEq] at hstep
    subst hstep
    refine foldl_inv (fun b2 : Sim => QueuesOK (t + 1) bb b2.nodes) _ ?_ _ _ ?_
    · intro b2 p hb2
      rw [updateMetrics_nodes]
      exact hb2
    · dsimp only
      rw [updateNode_nodes]
      refine queuesOK_set_ships_drop _ _ _ _ _ _ hb ?_
      obtain ⟨hrest, _⟩ := receive_shipments_aux_ok_spec t _ received rest haux
      rw [hrest]
      exact List.dropWhile_sublist _

theorem stepPhase2_queues (s : Sim) (t bb : Int)
    (h : QueuesOK (t + 1) bb s.nodes) :
    QueuesOK (t + 1) bb (Sim.stepPhase2 s t).nodes := by
  unfold Sim.stepPhase2
  refine foldl_inv (fun b : Sim => QueuesOK (t + 1) bb b.nodes) _ ?_ _ s h
  intro b i hb
  dsimp only
  rw [receive_orders_aux_spec]
  dsimp only
  refine foldl_inv (fun b2 : Sim => QueuesOK (t + 1) bb b2.nodes) _ ?_ _ _ ?_
  · intro b2 p hb2
    obtain ⟨sent, hh⟩ := p
    dsimp only
    split
    · rw [updateStore_nodes, updateNode_nodes, updateMetrics_nodes,
        updateNode_nodes]
      refine queuesOK_append_order_entry _ _ _ _ _ ?_ ?_
      · exact queuesOK_set_cq _ _ _ _ _ _ hb2
      · show _ = ((t + 1) - 1) + _
        rw [Int.add_sub_cancel, Nat.add_sub_cancel]
    · rw [updateMetrics_nodes, updateNode_nodes]
      exact queuesOK_set_cq _ _ _ _ _ _ hb2
  · dsimp only
    rw [updateNode_nodes]
    refine queuesOK_set_orders_drop _ _ _ _ _ _ hb ?_
    exact List.dropWhile_sublist _

theorem lag_eq_getD_set (nodes : List Node) (i k : Nat) (v : Node)
    (hv : v.lag_time = (nodes.getD i default).lag_time)
    (hk : (nodes.getD k default).lag_time = (nodes.getD i default).lag_time) :
    (nodes.getD i default).lag_time = ((nodes.set i v).getD k default).lag_time := by
  rw [getD_set_cases]
  split
  · next hc => rw [hv]
  · rw [hk]

theorem phase3_body_manu (t : Int) (b : Sim) (m : Nat)
    (hq : QueuesOK (t + 1) t b.nodes)
    (hlen : b.nodes.length = m + 1) :
    QueuesOK (t + 1) (t + 1) (Sim.phase3_body t b m).nodes := by
  have hm_lt : m < b.nodes.length := by omega
  have hflag : (b.nodes.getD m default).is_manufacturer = true :=
    (hq.manu_iff m hm_lt).mpr (by omega)
  have hmt : 1 ≤ (b.nodes.getD m default).manufacturing_time.getD 0 :=
    hq.manu_mt m hm_lt hflag
  have hold : ∀ bb2 ∈ (b.nodes.getD m default).active_batches,
      t ≤ bb2.end_time := hq.batches_future m hm_lt
  unfold Sim.phase3_body
  dsimp only
  rw [if_pos hflag]
  refine foldl_inv (fun b2 : Sim => QueuesOK (t + 1) (t + 1) b2.nodes) _ ?_ _ _ ?_
  · intro b2 p hb2
    rw [updateMetrics_nodes]
    exact hb2
  · dsimp only
    rw [updateNode_nodes, updateNode_nodes]
    dsimp only
    refine queuesOK_set_ships_append _ _ _ _ _ ?_ ?_
    · refine queuesOK_set_batches _ _ _ _ _ _ hq hflag ?_ ?_
      · intro j hj hji
        cases hfl : (b.nodes.getD j default).is_manufacturer with
        | false => rfl
        | true =>
          have hj2 := (hq.manu_iff j hj).mp hfl
          exact absurd hj2 (by omega)
      · exact proc_batches_bound t _ _ _ _ _ hmt hold
    · intro e he
      have harr := proc_ships_arrival t _ _ _ _ _ hold e he
      rw [harr, Int.add_sub_cancel]
      congr 1
      refine lag_eq_getD_set _ _ _ _ rfl ?_
      rw [List.length_set]
      by_cases hm0 : m = 0
      · subst hm0
        rw [if_pos rfl, hlen]
      · rw [if_neg hm0, Nat.sub_add_cancel (Nat.one_le_iff_ne_zero.mpr hm0),
          hlen, Nat.mod_eq_of_lt (by omega)]

theorem phase3_body_nodes_length (t : Int) (b : Sim) (i : Nat) :
    (Sim.phase3_body t b i).nodes.length = b.nodes.length := by
  unfold Sim.phase3_body
  dsimp only
  split
  · rw [foldl_pres (fun b2 : Sim => b2.nodes.length) _
      (fun b2 p => by dsimp only; rw [updateMetrics_nodes])]
    rw [updateNode_nodes, updateNode_nodes]
    dsimp only
    rw [List.length_set, List.length_set]
  · by_cases hi0 : i = 0
    · subst hi0
      rw [if_pos rfl, if_neg (fun hcon => hcon rfl)]
      rw [foldl_pres (fun b2 : Sim => b2.nodes.length) _
        (fun b2 p => by dsimp only; rw [updateMetrics_nodes])]
      rw [updateNode_nodes]
      dsimp only
      rw [List.length_set]
    · rw [if_neg hi0, if_pos hi0]
      rw [updateNode_nodes, updateNode_nodes]
      dsimp only
      rw [List.length_set, List.length_set]

theorem phase3_body_other (t : Int) (b : Sim) (m i : Nat)
    (hq : QueuesOK (t + 1) (t + 1) b.nodes)
    (hlen : b.nodes.length = m + 1)
    (hi : i < m) :
    QueuesOK (t + 1) (t + 1) (Sim.phase3_body t b i).nodes := by
  have hi_lt : i < b.nodes.length := by omega
  have hflag : (b.nodes.getD i default).is_manufacturer = false := by
    cases hfl : (b.nodes.getD i default).is_manufacturer with
    | false => rfl
    | true =>
      have hj2 := (hq.manu_iff i hi_lt).mp hfl
      exact absurd hj2 (by omega)
  unfold Sim.phase3_body
  dsimp only
  rw [if_neg (by rw [hflag]; exact Bool.false_ne_true)]
  by_cases hi0 : i = 0
  · subst hi0
    rw [if_pos rfl, if_neg (fun hcon => hcon rfl)]
    refine foldl_inv (fun b2 : Sim => QueuesOK (t + 1) (t + 1) b2.nodes) _ ?_ _ _ ?_
    · intro b2 p hb2
      rw [updateMetrics_nodes]
      exact hb2
    · dsimp only
      rw [updateNode_nodes]
      dsimp only
      exact queuesOK_set_cq _ _ _ _ _ _ hq
  · rw [if_neg hi0, if_pos hi0]
    rw [updateNode_nodes, updateNode_nodes]
    dsimp only
    refine queuesOK_set_ships_append _ _ _ _ _ ?_ ?_
    · exact queuesOK_set_cq _ _ _ _ _ _ hq
    · intro e he
      rw [decide_eq_true hi0] at he
      have harr := fulfill_ships_arrival t (b.nodes.getD i default).lag_time
        (b.nodes.getD i default).customer_queue
        (b.nodes.getD i default).inventory_units b.tracked_units e he
      rw [harr, Int.add_sub_cancel]
      congr 1
      refine lag_eq_getD_set _ _ _ _ rfl ?_
      rw [List.length_set, Nat.sub_add_cancel (Nat.one_le_iff_ne_zero.mpr hi0),
        hlen, Nat.mod_eq_of_lt (by omega)]

theorem queuesOK_nil (tb bb : Int) (nodes : List Node)
    (h : nodes.length = 0) : QueuesOK tb bb nodes := by
  refine ⟨?_, ?_, ?_, ?_, ?_, ?_, ?_, ?_⟩ <;>
    exact fun i hi => absurd hi (by omega)

theorem stepPhase3_queues (s : Sim) (t : Int)
    (hnum : s.num_nodes = s.nodes.length)
    (h : QueuesOK (t + 1) t s.nodes) :
    QueuesOK (t + 1) (t + 1) (Sim.stepPhase3 s t).nodes := by
  unfold Sim.stepPhase3
  cases hn : s.num_nodes with
  | zero =>
    simp only [List.range_zero, List.reverse_nil, List.foldl_nil]
    exact queuesOK_nil _ _ _ (by omega)
  | succ m =>
    rw [range_reverse_succ, List.foldl_cons]
    have hlen : s.nodes.length = m + 1 := by omega
    have h1 := phase3_body_manu t s m h hlen
    have h1len : (Sim.phase3_body t s m).nodes.length = m + 1 := by
      rw [phase3_body_nodes_length]
      exact hlen
    refine (foldl_inv_mem
      (fun b2 : Sim => QueuesOK (t + 1) (t + 1) b2.nodes ∧ b2.nodes.length = m + 1)
      _ _ ?_ _ ⟨h1, h1len⟩).1
    intro b2 i2 hi2 hb2
    have hi2m : i2 < m := List.mem_range.mp (List.mem_reverse.mp hi2)
    exact ⟨phase3_body_other t b2 m i2 hb2.1 hb2.2 hi2m,
      by rw [phase3_body_nodes_length]; exact hb2.2⟩

theorem queuesOK_weaken (tb tb' bb : Int) (nodes : List Node)
    (hle : tb ≤ tb') (h : QueuesOK tb bb nodes) : QueuesOK tb' bb nodes := by
  refine ⟨h.manu_iff, h.manu_mt, h.batches_empty, h.batches_future, ?_,
    h.orders_sorted, ?_, h.ships_sorted⟩
  · intro i hi e he
    have := h.orders_bnd i hi e he
    omega
  · intro i hi e he
    have := h.ships_bnd i hi e he
    omega

theorem stepPhase4_nodes (s : Sim) (t : Int) :
    (Sim.stepPhase4 s t).nodes = s.nodes := rfl

theorem stepPhase4_time (s : Sim) (t : Int) :
    (Sim.stepPhase4 s t).time = t + 1 := rfl

theorem step_lagInv (s : Sim) (d : Int) (s' : Sim)
    (h : Sim.step s d = .ok s') (hinv : LagInv s) : LagInv s' := by
  have hobs := step_obs s d s' h
  simp only [Sim.step] at h
  cases hp : Sim.stepPhase1 (Sim.stepPhase0 s s.time d) s.time with
  | error e =>
    rw [hp] at h
    simp [Bind.bind, Except.bind] at h
  | ok s1 =>
    rw [hp] at h
    simp only [Bind.bind, Except.bind, Except.ok.injEq] at h
    have h0 : QueuesOK (s.time + 1) s.time (Sim.stepPhase0 s s.time d).nodes :=
      stepPhase0_queues s s.time d s.time
        (queuesOK_weaken _ _ _ _ (by omega) hinv.queues)
    have h1 : QueuesOK (s.time + 1) s.time s1.nodes :=
      stepPhase1_queues _ s.time _ s1 hp h0
    have h2 : QueuesOK (s.time + 1) s.time (Sim.stepPhase2 s1 s.time).nodes :=
      stepPhase2_queues s1 s.time s.time h1
    have hx : (Sim.stepPhase2 s1 s.time).obs = (Sim.stepPhase0 s s.time d).obs :=
      (stepPhase2_obs s1 s.time).trans (stepPhase1_obs _ s.time s1 hp)
    have hx0 := hx.trans (stepPhase0_obs s s.time d)
    have hnn := congrArg
      (fun x : Int × List StatsRow × List Int × List UnitId ×
        Nat × Nat × Nat × Int × Int => x.2.2.2.2.2.2.1) hx0
    have hnl := congrArg
      (fun x : Int × List StatsRow × List Int × List UnitId ×
        Nat × Nat × Nat × Int × Int => x.2.2.2.2.2.1) hx0
    dsimp only [Sim.obs] at hnn hnl
    have hnum2 : (Sim.stepPhase2 s1 s.time).num_nodes
        = (Sim.stepPhase2 s1 s.time).nodes.length := by
      rw [hnn, hnl]
      exact hinv.num_eq
    have h3 := stepPhase3_queues (Sim.stepPhase2 s1 s.time) s.time hnum2 h2
    subst h
    refine ⟨?_, ?_, ?_⟩
    · rw [stepPhase4_time]
      have := hinv.time_nonneg
      omega
    · rw [hobs.2.2.2.2.2.2.1, hobs.2.2.2.2.2.1]
      exact hinv.num_eq
    · rw [stepPhase4_time, stepPhase4_nodes]
      exact h3

theorem getD_map_range {α : Type _} [Inhabited α] (n j : Nat) (f : Nat → α)
    (hj : j < n) : ((List.range n).map f).getD j default = f j := by
  rw [List.getD_eq_getElem?_getD, List.getElem?_map, List.getElem?_range hj]
  rfl

theorem seed_fold_nodes (invs : List Int) (l : List Nat)
    (acc : List Node × List TrackedUnit × List MetricsRow) :
    (l.foldl (Sim.seed_body invs) acc).1.length = acc.1.length ∧
    ∀ j,
      ((l.foldl (Sim.seed_body invs) acc).1.getD j default).is_manufacturer
          = (acc.1.getD j default).is_manufacturer ∧
      ((l.foldl (Sim.seed_body invs) acc).1.getD j default).manufacturing_time
          = (acc.1.getD j default).manufacturing_time ∧
      ((l.foldl (Sim.seed_body invs) acc).1.getD j default).active_batches
          = (acc.1.getD j default).active_batches ∧
      ((l.foldl (Sim.seed_body invs) acc).1.getD j default).incoming_orders
          = (acc.1.getD j default).incoming_orders ∧
      ((l.foldl (Sim.seed_body invs) acc).1.getD j default).incoming_shipments
          = (acc.1.getD j default).incoming_shipments := by
  refine foldl_inv (fun acc2 : List Node × List TrackedUnit × List MetricsRow =>
    acc2.1.length = acc.1.length ∧ ∀ j,
      (acc2.1.getD j default).is_manufacturer
          = (acc.1.getD j default).is_manufacturer ∧
      (acc2.1.getD j default).manufacturing_time
          = (acc.1.getD j default).manufacturing_time ∧
      (acc2.1.getD j default).active_batches
          = (acc.1.getD j default).active_batches ∧
      (acc2.1.getD j default).incoming_orders
          = (acc.1.getD j default).incoming_orders ∧
      (acc2.1.getD j default).incoming_shipments
          = (acc.1.getD j default).incoming_shipments) _ ?_ l acc
    ⟨rfl, fun j => ⟨rfl, rfl, rfl, rfl, rfl⟩⟩
  intro b i hb
  unfold Sim.seed_body
  dsimp only
  refine ⟨?_, ?_⟩
  · rw [List.length_set]
    exact hb.1
  · intro j
    rw [getD_set_cases]
    by_cases hc : j = i ∧ i < b.1.length
    · rw [if_pos hc]
      obtain ⟨h1, h2, h3, h4, h5⟩ := hb.2 i
      rw [hc.1]
      exact ⟨h1, h2, h3, h4, h5⟩
    · rw [if_neg hc]
      exact hb.2 j

theorem seeded_queuesOK (n : Nat) (invs : List Int) (bn : List Node)
    (hbnlen : bn.length = n)
    (hflag : ∀ j, j < n →
      ((bn.getD j default).is_manufacturer = true ↔ j = n - 1))
    (hmt : ∀ j, j < n → (bn.getD j default).is_manufacturer = true →
      1 ≤ (bn.getD j default).manufacturing_time.getD 0)
    (hbat : ∀ j, j < n → (bn.getD j default).active_batches = [])
    (hord : ∀ j, j < n → (bn.getD j default).incoming_orders = [])
    (hshp : ∀ j, j < n → (bn.getD j default).incoming_shipments = []) :
    QueuesOK 0 0 ((List.range n).foldl (Sim.seed_body invs) (bn, [], [])).1 := by
  obtain ⟨hlen, hf⟩ := seed_fold_nodes invs (List.range n) (bn, [], [])
  dsimp only at hlen hf
  have hn : ((List.range n).foldl (Sim.seed_body invs) (bn, [], [])).1.length = n := by
    rw [hlen, hbnlen]
  refine ⟨?_, ?_, ?_, ?_, ?_, ?_, ?_, ?_⟩
  · intro i hi
    rw [(hf i).1, hn]
    exact hflag i (by omega)
  · intro i hi hman
    rw [(hf i).1] at hman
    rw [(hf i).2.1]
    exact hmt i (by omega) hman
  · intro i hi _
    rw [(hf i).2.2.1]
    exact hbat i (by omega)
  · intro i hi
    rw [(hf i).2.2.1, hbat i (by omega)]
    exact fun b hb => absurd hb (List.not_mem_nil b)
  · intro i hi
    rw [(hf i).2.2.2.1, hord i (by omega)]
    exact fun e he => absurd he (List.not_mem_nil e)
  · intro i hi
    rw [(hf i).2.2.2.1, hord i (by omega)]
    exact List.Pairwise.nil
  · intro i hi
    rw [(hf i).2.2.2.2, hshp i (by omega)]
    exact fun e he => absurd he (List.not_mem_nil e)
  · intro i hi
    rw [(hf i).2.2.2.2, hshp i (by omega)]
    exact List.Pairwise.nil

theorem init_lagInv (n : Nat) (invs cls lts : List Int) (mt mft md : Int)
    (sd : Option Int) (s : Sim)
    (h : Sim.init n invs cls lts mt mft md sd = .ok s)
    (hm : 1 ≤ s.manufacturing_time) : LagInv s := by
  unfold Sim.init at h
  split at h
  case isFalse => exact Except.noConfusion h
  case isTrue hcond =>
    dsimp only at h
    simp only [Except.ok.injEq] at h
    subst h
    dsimp only at hm
    refine ⟨le_refl 0, ?_, ?_⟩
    · show n = _
      dsimp only
      rw [(seed_fold_nodes _ _ _).1]
      dsimp only
      rw [List.length_map, List.length_range]
    · show QueuesOK 0 0 _
      dsimp only
      refine seeded_queuesOK n invs _ ?_ ?_ ?_ ?_ ?_ ?_
      · rw [List.length_map, List.length_range]
      · intro j hj
        rw [getD_map_range _ _ _ hj]
        dsimp only
        exact beq_iff_eq
      · intro j hj hman
        rw [getD_map_range _ _ _ hj] at hman
        rw [getD_map_range _ _ _ hj]
        dsimp only at hman ⊢
        rw [if_pos (beq_iff_eq.mp hman)]
        exact hm
      · intro j hj
        rw [getD_map_range _ _ _ hj]
      · intro j hj
        rw [getD_map_range _ _ _ hj]
      · intro j hj
        rw [getD_map_range _ _ _ hj]

theorem reset_nodes_getD (s : Sim) (i : Nat) (hi : i < s.nodes.length) :
    ((Sim.reset s).nodes.getD i default).is_manufacturer
        = (s.nodes.getD i default).is_manufacturer ∧
    ((Sim.reset s).nodes.getD i default).manufacturing_time
        = (s.nodes.getD i default).manufacturing_time ∧
    ((Sim.reset s).nodes.getD i default).active_batches
        = (s.nodes.getD i default).active_batches ∧
    ((Sim.reset s).nodes.getD i default).incoming_orders = [] ∧
    ((Sim.reset s).nodes.getD i default).incoming_shipments = [] := by
  unfold Sim.reset
  dsimp only
  rw [getD_map_range _ _ _ hi]
  split
  · exact ⟨rfl, rfl, rfl, rfl, rfl⟩
  · exact ⟨rfl, rfl, rfl, rfl, rfl⟩

theorem reset_lagInv (s : Sim) (hinv : LagInv s) : LagInv (Sim.reset s) := by
  have hlen : (Sim.reset s).nodes.length = s.nodes.length := by
    unfold Sim.reset
    dsimp only
    rw [List.length_map, List.length_range]
  refine ⟨le_refl 0, ?_, ?_⟩
  · show s.num_nodes = _
    rw [hlen]
    exact hinv.num_eq
  · show QueuesOK 0 0 _
    refine ⟨?_, ?_, ?_, ?_, ?_, ?_, ?_, ?_⟩
    · intro i hi
      have hi' : i < s.nodes.length := by omega
      rw [(reset_nodes_getD s i hi').1, hlen]
      exact hinv.queues.manu_iff i hi'
    · intro i hi hman
      have hi' : i < s.nodes.length := by omega
      rw [(reset_nodes_getD s i hi').1] at hman
      rw [(reset_nodes_getD s i hi').2.1]
      exact hinv.queues.manu_mt i hi' hman
    · intro i hi hman
      have hi' : i < s.nodes.length := by omega
      rw [(reset_nodes_getD s i hi').1] at hman
      rw [(reset_nodes_getD s i hi').2.2.1]
      exact hinv.queues.batches_empty i hi' hman
    · intro i hi
      have hi' : i < s.nodes.length := by omega
      rw [(reset_nodes_getD s i hi').2.2.1]
      intro b hb
      have h1 := hinv.queues.batches_future i hi' b hb
      have h2 := hinv.time_nonneg
      omega
    · intro i hi
      have hi' : i < s.nodes.length := by omega
      rw [(reset_nodes_getD s i hi').2.2.2.1]
      exact fun e he => absurd he (List.not_mem_nil e)
    · intro i hi
      have hi' : i < s.nodes.length := by omega
      rw [(reset_nodes_getD s i hi').2.2.2.1]
      exact List.Pairwise.nil
    · intro i hi
      have hi' : i < s.nodes.length := by omega
      rw [(reset_nodes_getD s i hi').2.2.2.2]
      exact fun e he => absurd he (List.not_mem_nil e)
    · intro i hi
      have hi' : i < s.nodes.length := by omega
      rw [(reset_nodes_getD s i hi').2.2.2.2]
      exact List.Pairwise.nil

theorem reachable_lagInv (s : Sim) (h : Reachable s) :
    1 ≤ s.manufacturing_time → LagInv s := by
  induction h with
  | init n invs cls lts mt mft md sd s0 hinit =>
    intro hm
    exact init_lagInv n invs cls lts mt mft md sd s0 hinit hm
  | step s0 d s' hr hstep ih =>
    intro hm
    have hmft := (step_obs s0 d s' hstep).2.2.2.2.2.2.2.2
    rw [hmft] at hm
    exact step_lagInv s0 d s' hstep (ih hm)
  | reset s0 hr ih =>
    intro hm
    exact reset_lagInv s0 (ih hm)

theorem takeWhile_filter_sorted {α : Type _} (p : α → Bool) (R : α → α → Prop)
    (hR : ∀ a b, R a b → p b = true → p a = true) :
    ∀ l : List α, List.Pairwise R l →
      l.takeWhile p = l.filter p ∧ l.dropWhile p = l.filter (fun x => ! p x) := by
  intro l
  induction l with
  | nil => exact fun _ => ⟨rfl, rfl⟩
  | cons a l ih =>
    intro hp
    rw [List.pairwise_cons] at hp
    obtain ⟨ih1, ih2⟩ := ih hp.2
    by_cases ha : p a = true
    · rw [List.takeWhile_cons, List.dropWhile_cons, List.filter_cons,
        List.filter_cons]
      simp [ha, ih1, ih2]
    · have hl : ∀ x ∈ l, p x = false := by
        intro x hx
        cases hpx : p x with
        | false => rfl
        | true => exact absurd (hR a x (hp.1 x hx) hpx) ha
      have hf1 : l.filter p = [] := List.filter_eq_nil_iff.mpr (by
        intro x hx
        rw [hl x hx]
        exact Bool.false_ne_true)
      have hf2 : l.filter (fun x => ! p x) = l := List.filter_eq_self.mpr (by
        intro x hx
        rw [hl x hx]
        rfl)
      rw [List.takeWhile_cons, List.dropWhile_cons, List.filter_cons,
        List.filter_cons]
      rw [Bool.not_eq_true] at ha
      simp [ha, hf1, hf2]

theorem receive_shipments_aux_quads (t : Int) :
    ∀ q : List ShipEntry, (∀ e ∈ q, e.isQuad = true) →
      Node.receive_shipments_aux t q
        = .ok ((q.takeWhile (fun e => e.arrival_time ≤ t)).map
                 (fun e => (e.unit, e.req_time)),
               q.dropWhile (fun e => e.arrival_time ≤ t)) := by
  intro q
  induction q with
  | nil => exact fun _ => rfl
  | cons e q ih =>
    intro hq
    unfold Node.receive_shipments_aux
    by_cases hdue : e.arrival_time ≤ t
    · rw [if_pos hdue]
      cases e with
      | triple a u st =>
        have hcon := hq _ (List.mem_cons_self _ _)
        simp [ShipEntry.isQuad] at hcon
      | quad a u st rq =>
        rw [ih (fun x hx => hq x (List.mem_cons_of_mem _ hx))]
        simp only [Bind.bind, Except.bind, List.takeWhile_cons,
          List.dropWhile_cons]
        simp [hdue]
        exact ⟨rfl, rfl⟩
    · rw [if_neg hdue]
      simp [List.takeWhile_cons, List.dropWhile_cons, hdue]

theorem mem_getD_of_mem {α : Type _} [Inhabited α] (xs : List α) (v : α)
    (hv : v ∈ xs) : ∃ k, k < xs.length ∧ xs.getD k default = v := by
  obtain ⟨k, hk, he⟩ := List.mem_iff_getElem.mp hv
  refine ⟨k, hk, ?_⟩
  rw [List.getD_eq_getElem?_getD, List.getElem?_eq_getElem hk]
  exact he

/-- C9: lag monotonicity of the receive operations.  In every reachable
state with a positive production time (spec §6), each queue entry's
stored arrival tick is `T + L` (sent tick plus lag, as
`propagate_order_upstream` / `fulfill_customer_queue` /
`process_manufacturing` enqueue it), and running a receive operation at
tick `t` returns exactly the entries with arrival tick `≤ t`, in queue
order, and leaves exactly those with arrival tick `> t` — no entry is
returned strictly before its arrival tick, and none is stuck behind a
later-scheduled entry once its arrival tick is reached. -/
theorem C9_lag_monotonicity (s : Sim) (hr : Reachable s)
    (hm : 1 ≤ s.manufacturing_time) (nd : Node) (hnd : nd ∈ s.nodes) (t : Int) :
    Node.receive_shipments_aux t nd.incoming_shipments
      = .ok ((nd.incoming_shipments.filter
                (fun e => e.arrival_time ≤ t)).map
               (fun e => (e.unit, e.req_time)),
             nd.incoming_shipments.filter
               (fun e => decide (t < e.arrival_time)))
    ∧ Node.receive_orders_aux t nd.incoming_orders
      = ((nd.incoming_orders.filter
            (fun e => e.arrival_time ≤ t)).map
           (fun e => (e.sent_time, e.unit)),
         nd.incoming_orders.filter
           (fun e => decide (t < e.arrival_time))) := by
  have hinv := reachable_lagInv s hr hm
  obtain ⟨j, hj, hgd⟩ := mem_getD_of_mem s.nodes nd hnd
  have hss : List.Pairwise shipLE nd.incoming_shipments := by
    rw [← hgd]
    exact hinv.queues.ships_sorted j hj
  have hos : List.Pairwise orderLE nd.incoming_orders := by
    rw [← hgd]
    exact hinv.queues.orders_sorted j hj
  have hqd : ∀ e ∈ nd.incoming_shipments, e.isQuad = true :=
    reachable_quadInv s hr nd hnd
  have hbr1 : ∀ e ∈ nd.incoming_shipments,
      (!(decide (e.arrival_time ≤ t))) = decide (t < e.arrival_time) := by
    intro x _
    by_cases hxt : x.arrival_time ≤ t
    · simp [hxt, not_lt.mpr hxt]
    · simp [hxt, not_le.mp hxt]
  have hbr2 : ∀ e ∈ nd.incoming_orders,
      (!(decide (e.arrival_time ≤ t))) = decide (t < e.arrival_time) := by
    intro x _
    by_cases hxt : x.arrival_time ≤ t
    · simp [hxt, not_lt.mpr hxt]
    · simp [hxt, not_le.mp hxt]
  obtain ⟨hts, hds⟩ := takeWhile_filter_sorted
    (fun e : ShipEntry => decide (e.arrival_time ≤ t)) shipLE
    (fun a b hab hb => by
      rw [decide_eq_true_eq] at hb
      exact decide_eq_true (le_trans hab hb))
    nd.incoming_shipments hss
  obtain ⟨hto, hdo⟩ := takeWhile_filter_sorted
    (fun e : OrderEntry => decide (e.arrival_time ≤ t)) orderLE
    (fun a b hab hb => by
      rw [decide_eq_true_eq] at hb
      exact decide_eq_true (le_trans hab hb))
    nd.incoming_orders hos
  constructor
  · rw [receive_shipments_aux_quads t _ hqd, hts, hds,
      List.filter_congr hbr1]
  · rw [receive_orders_aux_spec, hto, hdo, List.filter_congr hbr2]

theorem C9_lag_monotonicity_witness :
    Reachable demoSimStep ∧ 1 ≤ demoSimStep.manufacturing_time ∧
    (Node.receive_shipments_aux 0
        (demoSimStep.nodes.getD 1 default).incoming_shipments
      = .ok ((((demoSimStep.nodes.getD 1 default).incoming_shipments.filter
                 (fun e => e.arrival_time ≤ (0 : Int))).map
                (fun e => (e.unit, e.req_time))),
             (demoSimStep.nodes.getD 1 default).incoming_shipments.filter
               (fun e => decide ((0 : Int) < e.arrival_time)))
     ∧ Node.receive_orders_aux 0
        (demoSimStep.nodes.getD 1 default).incoming_orders
      = ((((demoSimStep.nodes.getD 1 default).incoming_orders.filter
             (fun e => e.arrival_time ≤ (0 : Int))).map
            (fun e => (e.sent_time, e.unit))),
         (demoSimStep.nodes.getD 1 default).incoming_orders.filter
           (fun e => decide ((0 : Int) < e.arrival_time)))) :=
  ⟨Reachable.step demoSim 1 demoSimStep
     (Reachable.init 2 [1, 0] [1, 1] [1, 1] 100 3 50 none demoSim rfl) rfl,
   by decide,
   C9_lag_monotonicity demoSimStep
     (Reachable.step demoSim 1 demoSimStep
       (Reachable.init 2 [1, 0] [1, 1] [1, 1] 100 3 50 none demoSim rfl) rfl)
     (by decide) (demoSimStep.nodes.getD 1 default) (by decide) 0⟩
